import Mathlib

/-!
Verification of the route-optimizer core (grid road network, Dijkstra
shortest paths, nearest-neighbor TSP heuristic and 2-opt refinement).

The definitions below are a shallow embedding of `src/grid_road.py` and
`src/optimization_strategies.py`:

* intersection identifiers `grid_x_y` are represented by the coordinate
  pair `(x, y) : Nat × Nat`;
* Python `float` arithmetic is modelled over `ℚ`, and `float('inf')`
  (together with a missing dictionary key, which the code treats the same
  way through `dict.get(key, inf)`) by `none : Option ℚ`;
* the `heapq` priority queue is modelled by a list with a min-extraction
  function; `heapq` orders entries lexicographically by
  `(distance, intersection id string)`, the model orders ties on equal
  distances lexicographically by coordinates — no property proved below
  depends on the tie order;
* code that can only fail by raising (attribute access on a missing POI
  mapping) is modelled with `Option`, `none` standing for the raised
  exception;
* unbounded `while` loops are modelled with an explicit fuel argument
  large enough that the fuel can never run out (proved where needed).
-/

/-- Intersection identity: the grid coordinates `(x, y)`.  The source keys
its dictionaries by the string `f"grid_{x}_{y}"`, which is in bijection
with the pair. -/
abbrev VId := Nat × Nat

/-- `GridIntersection` dataclass from `grid_road.py`.  `intersection_id`
is derived from the coordinates (`grid_x_y`) and is represented by the
pair `(gridX, gridY)` itself. -/
structure GridIntersection where
  gridX : Nat
  gridY : Nat
  pixelX : ℚ
  pixelY : ℚ
  isPassable : Bool
deriving DecidableEq, Repr

/-- `GridRoad` dataclass.  The source stores references to the two
endpoint `GridIntersection` objects; their identities (all the road code
ever reads from them, the coordinates being immutable) are kept here. -/
structure RoadEntry where
  fromId : VId
  toId : VId
  isPassable : Bool
deriving DecidableEq, Repr

/-- `RoadGrid` state: the `intersections` and `roads` dictionaries are
association lists in Python dict insertion order, `poi_map` likewise
(updates prepend, lookups take the first hit, matching dict overwrite
semantics). -/
structure RoadGrid where
  gridWidth : Int
  gridHeight : Int
  cellSize : ℚ
  intersections : List (VId × GridIntersection)
  roads : List RoadEntry
  poiMap : List (String × VId)
deriving Repr

/-- Pixel position of an intersection: `x * cell_size + cell_size / 2`. -/
def mkIntersection (x y : Nat) (c : ℚ) : GridIntersection :=
  ⟨x, y, x * c + c / 2, y * c + c / 2, true⟩

/-- `RoadGrid.__init__` / `_create_grid`: all `width*height` intersections
(y outer loop, x inner), then for each cell its horizontal road pair and
its vertical road pair, both directions inserted together.  Note the
source performs no validation of the dimensions: `range` of a
non-positive number is empty, hence `Int.toNat`. -/
def mkRoadGrid (w h : Int) (c : ℚ) : RoadGrid :=
  let xs := List.range w.toNat
  let ys := List.range h.toNat
  let inters := ys.flatMap (fun y => xs.map (fun x => (((x, y) : VId), mkIntersection x y c)))
  let roads := ys.flatMap (fun y => xs.flatMap (fun x =>
    (if (x : Int) < w - 1 then
        [⟨(x, y), (x + 1, y), true⟩, ⟨(x + 1, y), (x, y), true⟩]
      else ([] : List RoadEntry)) ++
    (if (y : Int) < h - 1 then
        [⟨(x, y), (x, y + 1), true⟩, ⟨(x, y + 1), (x, y), true⟩]
      else [])))
  ⟨w, h, c, inters, roads, []⟩

/-- `self.intersections.get(v)`. -/
def lookupI (g : RoadGrid) (v : VId) : Option GridIntersection :=
  (g.intersections.find? (fun e => e.1 == v)).map (·.2)

/-- The set of intersection ids (dictionary keys). -/
def gridKeys (g : RoadGrid) : List VId := g.intersections.map (·.1)

/-- Euclidean distance between two intersections' pixel positions.  The
source computes `((dx)**2 + (dy)**2) ** 0.5`; every road of the grid
joins 4-adjacent intersections, so exactly one of `dx`, `dy` is nonzero
and the square root equals `|dx| + |dy|`, which is the closed form used
here (exact over `ℚ`, where a general square root does not exist). -/
def euclidQ (a b : GridIntersection) : ℚ :=
  |a.pixelX - b.pixelX| + |a.pixelY - b.pixelY|

/-- `RoadGrid.get_neighbors`: scan the roads dict in insertion order,
keep roads leaving `u` that are passable, and pair the destination id
with the Euclidean distance of the two looked-up endpoint intersections.
(The destination intersection's own passability is *not* consulted.)
The source indexes `self.intersections[...]` directly; a road whose
endpoint was absent would raise there, which cannot happen for grids the
constructor builds — the model drops such a road instead. -/
def getNeighbors (g : RoadGrid) (u : VId) : List (VId × ℚ) :=
  g.roads.filterMap (fun r =>
    if r.fromId == u && r.isPassable then
      match lookupI g r.fromId, lookupI g r.toId with
      | some a, some b => some (r.toId, euclidQ a b)
      | _, _ => none
    else none)

/-- `RoadGrid.block_road`. -/
def blockRoad (g : RoadGrid) (f t : VId) : RoadGrid :=
  { g with roads := g.roads.map (fun r =>
      if r.fromId == f && r.toId == t then { r with isPassable := false } else r) }

/-- `RoadGrid.unblock_road`. -/
def unblockRoad (g : RoadGrid) (f t : VId) : RoadGrid :=
  { g with roads := g.roads.map (fun r =>
      if r.fromId == f && r.toId == t then { r with isPassable := true } else r) }

/-- `RoadGrid.block_intersection`. -/
def blockIntersection (g : RoadGrid) (v : VId) : RoadGrid :=
  { g with intersections := g.intersections.map (fun e =>
      if e.1 == v then (e.1, { e.2 with isPassable := false }) else e) }

/-- `RoadGrid.unblock_intersection`. -/
def unblockIntersection (g : RoadGrid) (v : VId) : RoadGrid :=
  { g with intersections := g.intersections.map (fun e =>
      if e.1 == v then (e.1, { e.2 with isPassable := true }) else e) }

/-- `RoadGrid.add_poi`: clamp the coordinates into the grid bounds and
record (overwrite) the mapping. -/
def addPoi (g : RoadGrid) (p : String) (x y : Int) : RoadGrid :=
  let cx := (max 0 (min x (g.gridWidth - 1))).toNat
  let cy := (max 0 (min y (g.gridHeight - 1))).toNat
  { g with poiMap := (p, (cx, cy)) :: g.poiMap }

/-- `RoadGrid.get_poi_intersection`. -/
def getPoiIntersection (g : RoadGrid) (p : String) : Option GridIntersection :=
  (g.poiMap.find? (fun e => e.1 == p)).bind (fun e => lookupI g e.2)

/-- The `intersection_id` of a POI's intersection, as read by the
optimizer (`get_poi_intersection(poi).intersection_id`). -/
def poiInterId (g : RoadGrid) (p : String) : Option VId :=
  (getPoiIntersection g p).map (fun a => (a.gridX, a.gridY))

/-! ### Extended rationals: `float` values possibly `inf`

`none` models `float('inf')` (and an absent dictionary key, which the
sources read back as `inf`). -/

/-- A Python float that is either a finite value or `inf`. -/
abbrev OQ := Option ℚ

/-- Addition with `inf` absorbing. -/
def oadd : OQ → OQ → OQ
  | some a, some b => some (a + b)
  | _, _ => none

/-- Strict comparison `x < y` as in IEEE: nothing is below `inf` only. -/
def olt : OQ → OQ → Bool
  | some a, some b => decide (a < b)
  | some _, none => true
  | none, _ => false

/-- `x ≤ y` on possibly-infinite values. -/
def ole (x y : OQ) : Bool := !olt y x

/-! ### Dijkstra, shared loop of `_dijkstra_distance` and `_dijkstra_path` -/

/-- The mutable state of the Dijkstra loops: tentative distances,
`previous` pointers, the visited set (as a list in insertion order) and
the priority queue contents. -/
structure DState where
  dist : VId → OQ
  prevM : VId → Option VId
  visited : List VId
  pq : List (ℚ × VId)

/-- Initial state: every distance `inf` except the source at `0`,
`previous` all `None`, queue `[(0, start)]`. -/
def dinit (a : VId) : DState :=
  ⟨fun v => if v == a then some 0 else none, fun _ => none, [], [(0, a)]⟩

/-- Coordinate order standing in for the string order `heapq` uses to
break ties between equal distances (no proved property depends on it). -/
def vle (u v : VId) : Bool :=
  decide (u.1 < v.1) || (u.1 == v.1 && decide (u.2 ≤ v.2))

/-- Lexicographic order on `(distance, id)` pairs, as compared by
`heapq`. -/
def pairLe (e f : ℚ × VId) : Bool :=
  decide (e.1 < f.1) || (e.1 == f.1 && vle e.2 f.2)

/-- `heapq.heappop`: extract a minimal entry, returning it and the
remaining entries. -/
def popMin : List (ℚ × VId) → Option ((ℚ × VId) × List (ℚ × VId))
  | [] => none
  | e :: rest =>
    match popMin rest with
    | none => some (e, [])
    | some (m, r) => if pairLe e m then some (e, rest) else some (m, e :: r)

/-- Relaxation of one neighbor `(v, w)` of the vertex being settled:
skip already-visited vertices, otherwise update distance, `previous`
pointer and queue when the new distance improves. -/
def relaxNbr (d : ℚ) (u : VId) (s : DState) (e : VId × ℚ) : DState :=
  if e.1 ∈ s.visited then s
  else if olt (some (d + e.2)) (s.dist e.1) then
    { s with
      dist := fun v => if v == e.1 then some (d + e.2) else s.dist v,
      prevM := fun v => if v == e.1 then some u else s.prevM v,
      pq := s.pq ++ [(d + e.2, e.1)] }
  else s

/-- Settle a freshly popped vertex `u` (popped with key `d`, remaining
queue `rest`): mark it visited, then relax all its neighbors. -/
def dstep (g : RoadGrid) (d : ℚ) (u : VId) (rest : List (ℚ × VId)) (s : DState) : DState :=
  (getNeighbors g u).foldl (relaxNbr d u)
    { s with visited := s.visited ++ [u], pq := rest }

/-- The `while pq:` loop of `_dijkstra_path` (no early exit), with fuel.
Stale queue entries (already-visited vertices) are dropped. -/
def dloopF (g : RoadGrid) : Nat → DState → DState
  | 0, s => s
  | n + 1, s =>
    match popMin s.pq with
    | none => s
    | some ((d, u), rest) =>
      if u ∈ s.visited then dloopF g n { s with pq := rest }
      else dloopF g n (dstep g d u rest s)

/-- Fuel sufficient for the loop to drain its queue (proved below). -/
def dFuel (g : RoadGrid) : Nat :=
  1 + (g.roads.length + 1) * (g.intersections.length + 1)

/-- Run the full Dijkstra loop from source `a`. -/
def dRun (g : RoadGrid) (a : VId) : DState := dloopF g (dFuel g) (dinit a)

/-- The path-reconstruction loop of `_dijkstra_path`: follow `previous`
pointers from the destination, then reverse; here accumulated directly
in source-to-destination order.  The source's `while` loop terminates
because `previous` chains follow the visit order (proved below); the
fuel bounds the chain length. -/
def backtrack (pm : VId → Option VId) : Nat → VId → List VId
  | 0, c => [c]
  | n + 1, c =>
    match pm c with
    | none => [c]
    | some u => backtrack pm n u ++ [c]

/-- `OptimizationStrategy._dijkstra_path`. -/
def dijkstraPath (g : RoadGrid) (a b : VId) : List VId :=
  backtrack (dRun g a).prevM (g.intersections.length + 1) b

/-- `OptimizationStrategy._dijkstra_distance`: same loop but with the
early `return current_distance` when the destination is popped, and
`distances[end]` when the queue drains. -/
def ddistF (g : RoadGrid) (b : VId) : Nat → DState → OQ
  | 0, s => s.dist b
  | n + 1, s =>
    match popMin s.pq with
    | none => s.dist b
    | some ((d, u), rest) =>
      if u ∈ s.visited then ddistF g b n { s with pq := rest }
      else if u == b then some d
      else ddistF g b n (dstep g d u rest s)

/-- `OptimizationStrategy._dijkstra_distance`. -/
def dijkstraDistance (g : RoadGrid) (a b : VId) : OQ :=
  ddistF g b (dFuel g) (dinit a)

/-! ### Graph notions the proofs are stated with -/

/-- `v` occurs among `get_neighbors(u)`: the edge relation the algorithm
actually traverses. -/
def isConn (g : RoadGrid) (u v : VId) : Bool :=
  (getNeighbors g u).any (fun e => e.1 == v)

/-- A passable road segment from `u` to `v` exists in the grid. -/
def isRoad (g : RoadGrid) (u v : VId) : Bool :=
  g.roads.any (fun r => r.fromId == u && r.toId == v && r.isPassable)

/-- The weight `get_neighbors` reports for the edge `u → v` (first hit). -/
def connW (g : RoadGrid) (u v : VId) : Option ℚ :=
  ((getNeighbors g u).find? (fun e => e.1 == v)).map (·.2)

/-- Total weight of a vertex sequence (`inf`/undefined edges absorb). -/
def costOf (g : RoadGrid) : List VId → OQ
  | u :: v :: rest => oadd (connW g u v) (costOf g (v :: rest))
  | _ => some 0

/-- A passable path from `a` to `b` exists (nonempty vertex sequence,
consecutive pairs connected as `get_neighbors` sees them). -/
def Reachable (g : RoadGrid) (a b : VId) : Prop :=
  ∃ p : List VId, p.head? = some a ∧ p.getLast? = some b ∧
    List.Chain' (fun u v => isConn g u v = true) p

/-! ### POI-level optimizer (`optimization_strategies.py`) -/

/-- `OptimizedRoute` dataclass. -/
structure OptimizedRoute where
  path : List String
  full_path : List VId
  total_distance : OQ
  algorithm_name : String
  iterations : Nat
deriving DecidableEq, Repr

/-- `_calculate_poi_distance_matrix`: for each ordered pair of distinct
POIs whose intersections both resolve, store the Dijkstra distance.
Association list in insertion order. -/
def poiMatrix (g : RoadGrid) (pois : List String) : List ((String × String) × OQ) :=
  pois.flatMap (fun f => pois.filterMap (fun t =>
    if f ≠ t then
      match poiInterId g f, poiInterId g t with
      | some fi, some ti => some ((f, t), dijkstraDistance g fi ti)
      | _, _ => none
    else none))

/-- `distance_matrix.get((p, q), float('inf'))`. -/
def mGet (m : List ((String × String) × OQ)) (k : String × String) : OQ :=
  match m.find? (fun e => e.1 == k) with
  | some e => e.2
  | none => none

/-- First element of `l` minimizing `f` under the strict order `olt`
(Python `min(…, key=…)` keeps the earliest among ties). -/
def argmin (f : String → OQ) : List String → Option String
  | [] => none
  | x :: xs =>
    match argmin f xs with
    | none => some x
    | some m => if olt (f m) (f x) then some m else some x

/-- The `while unvisited:` loop of `_solve_tsp_nearest_neighbor`. -/
def nnLoop (m : List ((String × String) × OQ)) : Nat → String → List String → List String
  | 0, _, _ => []
  | n + 1, cur, unvis =>
    match argmin (fun dest => mGet m (cur, dest)) unvis with
    | none => []
    | some nearest => nearest :: nnLoop m n nearest (unvis.erase nearest)

/-- `_solve_tsp_nearest_neighbor`.  `set(destination_pois)` is modelled
by `dedup` (membership semantics; the set's iteration order is
unspecified in Python, ties in `min` resolve to the first in model
order). -/
def nnSolve (m : List ((String × String) × OQ)) (start : String)
    (dests : List String) : List String :=
  let u := dests.dedup
  start :: nnLoop m u.length start u

/-- `_two_opt`'s tentative reversal
`route[:i] + route[i:j][::-1] + route[j:]`. -/
def twoOptSwap (r : List String) (i j : Nat) : List String :=
  r.take i ++ ((r.drop i).take (j - i)).reverse ++ r.drop j

/-- `TwoOptStrategy._calculate_route_distance`. -/
def routeDistM (m : List ((String × String) × OQ)) : List String → OQ
  | p :: q :: rest => oadd (mGet m (p, q)) (routeDistM m (q :: rest))
  | _ => some 0

/-- One scan of `_two_opt`'s nested `for` loops: the first pair
`(i, j)`, `1 ≤ i < j ≤ len-1`, `j - i ≠ 1`, whose reversal strictly
improves on `bd`. -/
def tryPairs (m : List ((String × String) × OQ)) (r : List String) (bd : OQ) :
    Option (List String) :=
  (List.range' 1 (r.length - 3)).findSome? (fun i =>
    (List.range' (i + 1) (r.length - (i + 1))).findSome? (fun j =>
      if j - i == 1 then none
      else
        let nr := twoOptSwap r i j
        if olt (routeDistM m nr) bd then some nr else none))

/-- The `while improved and iteration < max_iterations:` loop of
`_two_opt`; the fuel is the number of rounds still allowed
(`max_iterations - iteration`). -/
def twoOptAux (m : List ((String × String) × OQ)) :
    Nat → List String → Nat → List String × Nat
  | 0, r, it => (r, it)
  | fuel + 1, r, it =>
    match tryPairs m r (routeDistM m r) with
    | none => (r, it + 1)
    | some r' => twoOptAux m fuel r' (it + 1)

/-- `TwoOptStrategy._two_opt` (entered with `improved = True`,
`iteration = 0`). -/
def twoOpt (m : List ((String × String) × OQ)) (maxIter : Nat) (r : List String) :
    List String × Nat :=
  twoOptAux m maxIter r 0

/-- Tail of `_build_full_path`: segments after the first have their
leading intersection dropped. -/
def bfpTail (g : RoadGrid) : String → List String → Option (List VId)
  | _, [] => some []
  | p, q :: rest => do
    let pi ← poiInterId g p
    let qi ← poiInterId g q
    let tl ← bfpTail g q rest
    pure ((dijkstraPath g pi qi).drop 1 ++ tl)

/-- `OptimizationStrategy._build_full_path`; `none` models the
`AttributeError` raised when a POI has no mapped intersection. -/
def buildFullPath (g : RoadGrid) : List String → Option (List VId)
  | [] => some []
  | [_] => some []
  | p :: q :: rest => do
    let pi ← poiInterId g p
    let qi ← poiInterId g q
    let tl ← bfpTail g q rest
    pure (dijkstraPath g pi qi ++ tl)

/-- `OptimizationStrategy._calculate_path_distance`; `none` models the
`AttributeError` on an unmapped POI, the inner `OQ` the float total. -/
def calcPathDistance (g : RoadGrid) : List String → Option OQ
  | p :: q :: rest => do
    let pi ← poiInterId g p
    let qi ← poiInterId g q
    let tl ← calcPathDistance g (q :: rest)
    pure (oadd (dijkstraDistance g pi qi) tl)
  | _ => some (some 0)

/-- `NearestNeighborStrategy.optimize`. -/
def nnOptimize (g : RoadGrid) (start : String) (dests : List String) :
    Option OptimizedRoute := do
  let m := poiMatrix g (start :: dests)
  let poiPath := nnSolve m start dests
  let fp ← buildFullPath g poiPath
  let td ← calcPathDistance g poiPath
  pure ⟨poiPath, fp, td, "TSP Nearest Neighbor", 0⟩

/-- `TwoOptStrategy.optimize` (with its `max_iterations` parameter,
default 1000). -/
def twoOptOptimize (g : RoadGrid) (maxIter : Nat) (start : String)
    (dests : List String) : Option OptimizedRoute := do
  let m := poiMatrix g (start :: dests)
  let p0 := nnSolve m start dests
  let pr := twoOpt m maxIter p0
  let fp ← buildFullPath g pr.1
  let td ← calcPathDistance g pr.1
  pure ⟨pr.1, fp, td, "TSP + 2-Opt Local Search", pr.2⟩

/-! ### Auxiliary notions used only by the proofs -/

/-- Index of the first occurrence of `v` in `l` (length of `l` when
absent). -/
def idxIn : List VId → VId → Nat
  | [], _ => 0
  | x :: xs, v => if x == v then 0 else idxIn xs v + 1

/-- `u` was visited strictly before `v`. -/
def before (l : List VId) (u v : VId) : Prop :=
  u ∈ l ∧ idxIn l u < idxIn l v

/-- Number of grid intersections not yet visited. -/
def unvisCnt (g : RoadGrid) (s : DState) : Nat :=
  ((gridKeys g).filter (fun k => decide (k ∉ s.visited))).length

/-- Termination measure of the Dijkstra loop. -/
def dMeasure (g : RoadGrid) (s : DState) : Nat :=
  s.pq.length + (g.roads.length + 1) * unvisCnt g s

/-- Witness grid: 2×1, cell size 50, POI `A` on `(0,0)`, POI `B` on
`(1,0)`. -/
def wg21 : RoadGrid := addPoi (addPoi (mkRoadGrid 2 1 50) "A" 0 0) "B" 1 0

/-- `wg21` with the road between its two intersections blocked in both
directions: `B` is unreachable from `A`. -/
def wg21b : RoadGrid := blockRoad (blockRoad wg21 (0, 0) (1, 0)) (1, 0) (0, 0)

/-- The loop invariant of the Dijkstra `while` loop (source `a`):

* `visSub`/`visNodup` — the visited set holds grid intersections, each
  recorded once, in visit order;
* `distA` — the source keeps tentative distance `0`;
* `pqTgt`/`pqNonneg` — queue entries carry grid intersections and
  non-negative keys;
* `pqDist` — every queue key dominates the current tentative distance
  of its vertex;
* `unvisPq` — an unvisited vertex with a finite tentative distance has
  a queue entry carrying exactly that distance;
* `visPq` — a visited vertex's (final) distance is below every queue
  key;
* `tri` — relaxation has been completed from every visited vertex;
* `lower` — every finite tentative distance is witnessed by an actual
  passable path of no larger cost;
* `prevSpec`/`prevOrd`/`prevNone` — `previous` pointers follow passable
  edges backwards from later-visited to earlier-visited vertices, and
  only the source can have a finite distance with no pointer. -/
structure DInv (g : RoadGrid) (a : VId) (s : DState) : Prop where
  visSub : ∀ v ∈ s.visited, v ∈ gridKeys g
  visNodup : s.visited.Nodup
  distA : s.dist a = some 0
  pqTgt : ∀ e ∈ s.pq, e.2 ∈ gridKeys g
  pqNonneg : ∀ e ∈ s.pq, 0 ≤ e.1
  pqDist : ∀ e ∈ s.pq, ∃ q, s.dist e.2 = some q ∧ q ≤ e.1
  unvisPq : ∀ v q, v ∉ s.visited → s.dist v = some q → (q, v) ∈ s.pq
  visPq : ∀ v ∈ s.visited, ∀ e ∈ s.pq, ∃ q, s.dist v = some q ∧ q ≤ e.1
  visFinite : ∀ v ∈ s.visited, ∃ q, s.dist v = some q
  tri : ∀ u ∈ s.visited, ∀ e ∈ getNeighbors g u,
    ∃ qu qv, s.dist u = some qu ∧ s.dist e.1 = some qv ∧ qv ≤ qu + e.2
  lower : ∀ v q, s.dist v = some q → ∃ p qc, p.head? = some a ∧ p.getLast? = some v ∧
    List.Chain' (fun x y => isConn g x y = true) p ∧ costOf g p = some qc ∧ qc ≤ q
  prevSpec : ∀ v u, s.prevM v = some u → u ∈ s.visited ∧ isConn g u v = true ∧
    ∃ q, s.dist v = some q
  prevOrd : ∀ v u, s.prevM v = some u → v ∈ s.visited → before s.visited u v
  prevNone : ∀ v q, s.dist v = some q → s.prevM v = none → v = a

/-- The invariant holding while the neighbors of the vertex `u`, freshly
settled with key `d`, are being relaxed (`tri` holds only for the
previously visited vertices; `u`'s own neighbor bounds are recovered
after the whole fold). -/
structure RInv (g : RoadGrid) (a : VId) (d : ℚ) (u : VId) (s : DState) : Prop where
  visSub : ∀ v ∈ s.visited, v ∈ gridKeys g
  visNodup : s.visited.Nodup
  distA : s.dist a = some 0
  pqTgt : ∀ e ∈ s.pq, e.2 ∈ gridKeys g
  pqNonneg : ∀ e ∈ s.pq, 0 ≤ e.1
  pqDist : ∀ e ∈ s.pq, ∃ q, s.dist e.2 = some q ∧ q ≤ e.1
  unvisPq : ∀ v q, v ∉ s.visited → s.dist v = some q → (q, v) ∈ s.pq
  lower : ∀ v q, s.dist v = some q → ∃ p qc, p.head? = some a ∧ p.getLast? = some v ∧
    List.Chain' (fun x y => isConn g x y = true) p ∧ costOf g p = some qc ∧ qc ≤ q
  prevSpec : ∀ v u', s.prevM v = some u' → u' ∈ s.visited ∧ isConn g u' v = true ∧
    ∃ q, s.dist v = some q
  prevOrd : ∀ v u', s.prevM v = some u' → v ∈ s.visited → before s.visited u' v
  prevNone : ∀ v q, s.dist v = some q → s.prevM v = none → v = a
  uVis : u ∈ s.visited
  distU : s.dist u = some d
  dNonneg : 0 ≤ d
  visDistLe : ∀ x ∈ s.visited, ∃ q, s.dist x = some q ∧ q ≤ d
  pqLb : ∀ e ∈ s.pq, d ≤ e.1
  triOld : ∀ x ∈ s.visited, x ≠ u → ∀ e ∈ getNeighbors g x,
    ∃ qx qv, s.dist x = some qx ∧ s.dist e.1 = some qv ∧ qv ≤ qx + e.2

/-! ## Basic lemmas

Batteries marks the rational-number operations `@[irreducible]`, which
blocks `decide`'s evaluation of the executable definitions above on
concrete grids; restore the default reducibility for this file. -/

attribute [local semireducible] Rat.add Rat.sub Rat.mul Rat.inv

lemma oadd_none_right (x : OQ) : oadd x none = none := by cases x <;> rfl

lemma oadd_none_left (x : OQ) : oadd none x = none := rfl

lemma olt_none_left (x : OQ) : olt none x = false := rfl

/-! ## C4: grid construction -/

/-- C4 (amended): `RoadGrid.__init__` performs no dimension validation
and never fails; it creates `max(width,0) * max(height,0)` intersections
— an empty grid whenever a dimension is non-positive, `width * height`
when both are positive. -/
theorem C4_construction_never_fails (w h : Int) (c : ℚ) :
    (mkRoadGrid w h c).intersections.length = w.toNat * h.toNat := by
  simp only [mkRoadGrid, List.length_flatMap]
  rw [show (List.length ∘ fun y =>
        List.map (fun x => (((x, y) : VId), mkIntersection x y c)) (List.range w.toNat)) =
      fun _ => w.toNat from funext (fun y => by simp)]
  rw [List.map_const', List.sum_replicate, smul_eq_mul, List.length_range, Nat.mul_comm]

/-- C4 counterexample: constructing a grid with `width = 0` (and with
both dimensions negative) succeeds and yields a grid with zero
intersections; no `InvalidDimension` failure exists in the code. -/
theorem C4_counterexample :
    (mkRoadGrid 0 3 50).intersections.length = 0 ∧
    (mkRoadGrid (-2) (-3) 50).intersections.length = 0 ∧
    ¬((-2 : Int) * (-3) = 0) := by
  refine ⟨rfl, rfl, by decide⟩

/-! ## C10: empty destination list -/

/-- C10: with an empty destination list both strategies return (rather
than raise) an `OptimizedRoute` whose POI path is `[start]`, whose full
path is empty and whose total distance is `0`. -/
theorem C10_empty_destinations (g : RoadGrid) (s : String) (mi : Nat) :
    nnOptimize g s [] = some ⟨[s], [], some 0, "TSP Nearest Neighbor", 0⟩ ∧
    ∃ r, twoOptOptimize g mi s [] = some r ∧
      r.path = [s] ∧ r.full_path = [] ∧ r.total_distance = some 0 := by
  refine ⟨rfl, ?_⟩
  cases mi with
  | zero => exact ⟨_, rfl, rfl, rfl, rfl⟩
  | succ n => exact ⟨_, rfl, rfl, rfl, rfl⟩

/-! ## C8: 2-opt never moves the start POI -/

lemma twoOptSwap_head (r : List String) (i j : Nat) (hi : 1 ≤ i) :
    (twoOptSwap r i j).head? = r.head? := by
  cases r with
  | nil => simp [twoOptSwap]
  | cons x xs =>
    cases i with
    | zero => omega
    | succ n => simp [twoOptSwap]

lemma tryPairs_head {m : List ((String × String) × OQ)} {r r' : List String} {bd : OQ}
    (h : tryPairs m r bd = some r') : r'.head? = r.head? := by
  obtain ⟨i, hi, h2⟩ := List.exists_of_findSome?_eq_some h
  obtain ⟨j, hj, h3⟩ := List.exists_of_findSome?_eq_some h2
  have hi1 : 1 ≤ i := by
    rw [List.mem_range'] at hi
    omega
  simp only [] at h3
  split at h3
  · exact absurd h3 (by simp)
  · split at h3
    · injection h3 with h4
      rw [← h4]
      exact twoOptSwap_head r i j hi1
    · exact absurd h3 (by simp)

lemma twoOptAux_head (m : List ((String × String) × OQ)) :
    ∀ (fuel : Nat) (r : List String) (it : Nat),
      ((twoOptAux m fuel r it).1).head? = r.head? := by
  intro fuel
  induction fuel with
  | zero => intro r it; rfl
  | succ n ih =>
    intro r it
    simp only [twoOptAux]
    cases h : tryPairs m r (routeDistM m r) with
    | none => rfl
    | some r' => rw [ih r' (it + 1), tryPairs_head h]

/-- C8: for every input route and distance matrix, the route returned by
`_two_opt` has the same first element as the input route — every
committed reversal leaves position 0 untouched, since the reversal
indices `i` start at 1. -/
theorem C8_two_opt_preserves_start (m : List ((String × String) × OQ))
    (maxIter : Nat) (r : List String) :
    ((twoOpt m maxIter r).1).head? = r.head? :=
  twoOptAux_head m maxIter r 0

/-! ## C2: blocked intersections and the neighbor query -/

/-- C2 (failing input): on a 2×1 grid, after `block_intersection (1,0)`
the neighbor query of `(0,0)` still returns the blocked intersection
`(1,0)` — `get_neighbors` filters only on segment passability, never on
the destination intersection's passability flag, which the call did set
to `False`. -/
theorem C2_blocked_intersection_still_returned :
    getNeighbors (blockIntersection wg21 (1, 0)) (0, 0) = [((1, 0), 50)] ∧
    (lookupI (blockIntersection wg21 (1, 0)) (1, 0)).map GridIntersection.isPassable
      = some false := by
  decide

/-! ## C3 / C1 counterexample computations -/

/-- A vertex with an empty neighbor list and distinct from `b` reaches
nothing: used to discharge concrete unreachability. -/
lemma not_reachable_of_no_neighbors (g : RoadGrid) (a b : VId)
    (h : getNeighbors g a = []) (hab : a ≠ b) : ¬ Reachable g a b := by
  rintro ⟨p, hh, hl, hc⟩
  cases p with
  | nil => exact Option.noConfusion hh
  | cons x rest =>
    have hxa : x = a := by simpa using hh
    subst hxa
    cases rest with
    | nil => exact hab (by simpa using hl)
    | cons y rest' =>
      have hconn : isConn g x y = true := (List.chain'_cons.mp hc).1
      rw [isConn, h] at hconn
      simp at hconn

/-- C3 counterexample: on the blocked 2×1 grid no passable path from
`(0,0)` to `(1,0)` exists, yet `_dijkstra_path` returns the one-element
sequence `[(1,0)]`, not the empty sequence the claim states. -/
theorem C3_counterexample :
    ¬ Reachable wg21b (0, 0) (1, 0) ∧
    dijkstraPath wg21b (0, 0) (1, 0) = [(1, 0)] ∧
    dijkstraPath wg21b (0, 0) (1, 0) ≠ [] := by
  refine ⟨not_reachable_of_no_neighbors _ _ _ (by decide) (by decide), by decide, by decide⟩

/-- C1 counterexample: on the blocked 2×1 grid the POI order `A, B` has
no passable path between its only consecutive pair, yet
`NearestNeighborStrategy.optimize` raises nothing and returns a
complete `OptimizedRoute` (with infinite total distance and a full path
that silently skips the unreachable connection). -/
theorem C1_counterexample :
    dijkstraDistance wg21b (0, 0) (1, 0) = none ∧
    poiInterId wg21b "A" = some (0, 0) ∧ poiInterId wg21b "B" = some (1, 0) ∧
    nnOptimize wg21b "A" ["B"] =
      some ⟨["A", "B"], [(1, 0)], none, "TSP Nearest Neighbor", 0⟩ := by
  decide

/-! ## C6: shape of the nearest-neighbor tour -/

lemma argmin_mem {f : String → OQ} : ∀ {l : List String} {m : String},
    argmin f l = some m → m ∈ l := by
  intro l
  induction l with
  | nil => intro m h; exact Option.noConfusion h
  | cons x xs ih =>
    intro m h
    cases hx : argmin f xs with
    | none =>
      simp only [argmin, hx] at h
      injection h with h
      exact h ▸ List.mem_cons_self x xs
    | some m' =>
      simp only [argmin, hx] at h
      by_cases hlt : olt (f m') (f x) = true
      · rw [if_pos hlt] at h
        injection h with h
        exact List.mem_cons_of_mem x (ih (h ▸ hx))
      · rw [if_neg hlt] at h
        injection h with h
        exact h ▸ List.mem_cons_self x xs

lemma argmin_eq_none {f : String → OQ} : ∀ {l : List String},
    argmin f l = none ↔ l = [] := by
  intro l
  cases l with
  | nil => simp [argmin]
  | cons x xs =>
    simp only [argmin]
    cases argmin f xs with
    | none => simp
    | some m' => by_cases h : olt (f m') (f x) = true <;> simp [h]

lemma nnLoop_perm (m : List ((String × String) × OQ)) :
    ∀ (n : Nat) (cur : String) (unvis : List String), unvis.length = n →
      (nnLoop m n cur unvis).Perm unvis := by
  intro n
  induction n with
  | zero =>
    intro cur unvis hl
    rw [List.length_eq_zero] at hl
    subst hl
    exact List.Perm.refl _
  | succ k ih =>
    intro cur unvis hl
    cases harg : argmin (fun dest => mGet m (cur, dest)) unvis with
    | none =>
      rw [argmin_eq_none] at harg
      subst harg
      simp at hl
    | some nearest =>
      have hmem : nearest ∈ unvis := argmin_mem harg
      have herase : (unvis.erase nearest).length = k := by
        rw [List.length_erase_of_mem hmem, hl]
        rfl
      have h1 : nnLoop m (k + 1) cur unvis
          = nearest :: nnLoop m k nearest (unvis.erase nearest) := by
        simp [nnLoop, harg]
      rw [h1]
      exact ((ih nearest _ herase).cons nearest).trans (List.perm_cons_erase hmem).symm

lemma nnSolve_perm (m : List ((String × String) × OQ)) (start : String)
    (dests : List String) (hd : dests.Nodup) :
    (nnSolve m start dests).Perm (start :: dests) := by
  rw [nnSolve, List.dedup_eq_self.mpr hd]
  exact (nnLoop_perm m dests.length start dests rfl).cons start

/-- C6 (amended): for a duplicate-free destination list not containing
the start POI, `_solve_tsp_nearest_neighbor` returns a sequence of
length `destinations + 1` that starts with the start POI and contains
the start plus every destination exactly once.  (The original claim,
quantified over arbitrary lists, fails because the source converts the
destinations to a `set`, collapsing duplicates — see the
counterexample.) -/
theorem C6_nn_tour_shape (m : List ((String × String) × OQ)) (start : String)
    (dests : List String) (hd : dests.Nodup) (hs : start ∉ dests) :
    (nnSolve m start dests).length = dests.length + 1 ∧
    (nnSolve m start dests).head? = some start ∧
    (nnSolve m start dests).count start = 1 ∧
    ∀ d ∈ dests, (nnSolve m start dests).count d = 1 := by
  have hperm := nnSolve_perm m start dests hd
  have hnodup : (start :: dests).Nodup := List.nodup_cons.mpr ⟨hs, hd⟩
  refine ⟨?_, rfl, ?_, ?_⟩
  · rw [hperm.length_eq]; rfl
  · rw [hperm.count_eq]
    exact List.count_eq_one_of_mem hnodup (List.mem_cons_self start dests)
  · intro d hdm
    rw [hperm.count_eq]
    exact List.count_eq_one_of_mem hnodup (List.mem_cons_of_mem start hdm)

/-- C6 counterexample: with the duplicated destination list
`["d", "d"]` the returned sequence has length 2, not
`destinations + 1 = 3` — `set(destination_pois)` collapses the
duplicates. -/
theorem C6_counterexample :
    nnSolve [] "s" ["d", "d"] = ["s", "d"] ∧
    (nnSolve [] "s" ["d", "d"]).length ≠ (["d", "d"] : List String).length + 1 := by
  refine ⟨by decide, by decide⟩

/-- Witness for `C6_nn_tour_shape` at a concrete input. -/
theorem C6_nn_tour_shape_witness :
    ((["a", "b"] : List String).Nodup ∧ "s" ∉ (["a", "b"] : List String)) ∧
    ((nnSolve [] "s" ["a", "b"]).length = 3 ∧
      (nnSolve [] "s" ["a", "b"]).head? = some "s" ∧
      (nnSolve [] "s" ["a", "b"]).count "s" = 1 ∧
      ∀ d ∈ (["a", "b"] : List String), (nnSolve [] "s" ["a", "b"]).count d = 1) :=
  ⟨⟨by decide, by decide⟩, C6_nn_tour_shape [] "s" ["a", "b"] (by decide) (by decide)⟩

/-! ## Order lemmas for `OQ` and the queue order -/

lemma olt_some_some {a b : ℚ} : olt (some a) (some b) = true ↔ a < b := by
  simp [olt]

lemma olt_some_none {a : ℚ} : olt (some a) none = true := rfl

lemma ole_some_some {a b : ℚ} : ole (some a) (some b) = true ↔ a ≤ b := by
  simp [ole, olt, not_lt]

lemma ole_none_right (x : OQ) : ole x none = true := by cases x <;> rfl

lemma ole_none_left_iff {x : OQ} : ole none x = true ↔ x = none := by
  cases x <;> simp [ole, olt]

lemma ole_refl (x : OQ) : ole x x = true := by
  cases x with
  | none => rfl
  | some a => simp [ole_some_some]

lemma ole_trans {x y z : OQ} (h1 : ole x y = true) (h2 : ole y z = true) :
    ole x z = true := by
  cases x with
  | none => rw [ole_none_left_iff] at h1 ⊢; subst h1; rwa [ole_none_left_iff] at h2
  | some a =>
    cases z with
    | none => exact ole_none_right _
    | some c =>
      cases y with
      | none => simp [ole, olt] at h2
      | some b =>
        rw [ole_some_some] at h1 h2 ⊢
        exact le_trans h1 h2

lemma olt_ole {x y : OQ} (h : olt x y = true) : ole x y = true := by
  cases x with
  | none => simp [olt] at h
  | some a =>
    cases y with
    | none => exact ole_none_right _
    | some b => rw [olt_some_some] at h; rw [ole_some_some]; exact le_of_lt h

lemma ole_of_not_olt {x y : OQ} (h : ¬ olt x y = true) : ole y x = true := by
  simpa [ole] using h

lemma olt_trans_ole {x y z : OQ} (h1 : olt x y = true) (h2 : ole y z = true) :
    olt x z = true := by
  cases x with
  | none => simp [olt] at h1
  | some a =>
    cases y with
    | none => rw [ole_none_left_iff] at h2; subst h2; exact olt_some_none
    | some b =>
      cases z with
      | none => exact olt_some_none
      | some c =>
        rw [olt_some_some] at h1 ⊢
        rw [ole_some_some] at h2
        exact lt_of_lt_of_le h1 h2

lemma ole_antisymm {x y : OQ} (h1 : ole x y = true) (h2 : ole y x = true) : x = y := by
  cases x with
  | none => rw [ole_none_left_iff] at h1; exact h1.symm
  | some a =>
    cases y with
    | none => rw [ole_none_left_iff] at h2; exact h2
    | some b =>
      rw [ole_some_some] at h1 h2
      exact congrArg some (le_antisymm h1 h2)

lemma vle_total (u v : VId) : vle u v = true ∨ vle v u = true := by
  simp only [vle, Bool.or_eq_true, Bool.and_eq_true, decide_eq_true_eq, beq_iff_eq]
  omega

lemma vle_trans {u v w : VId} (h1 : vle u v = true) (h2 : vle v w = true) :
    vle u w = true := by
  simp only [vle, Bool.or_eq_true, Bool.and_eq_true, decide_eq_true_eq, beq_iff_eq] at h1 h2 ⊢
  omega

lemma pairLe_total (e f : ℚ × VId) : pairLe e f = true ∨ pairLe f e = true := by
  simp only [pairLe, Bool.or_eq_true, Bool.and_eq_true, decide_eq_true_eq, beq_iff_eq]
  rcases lt_trichotomy e.1 f.1 with h | h | h
  · exact Or.inl (Or.inl h)
  · rcases vle_total e.2 f.2 with h2 | h2
    · exact Or.inl (Or.inr ⟨h, h2⟩)
    · exact Or.inr (Or.inr ⟨h.symm, h2⟩)
  · exact Or.inr (Or.inl h)

lemma pairLe_trans {e f k : ℚ × VId} (h1 : pairLe e f = true) (h2 : pairLe f k = true) :
    pairLe e k = true := by
  simp only [pairLe, Bool.or_eq_true, Bool.and_eq_true, decide_eq_true_eq, beq_iff_eq]
    at h1 h2 ⊢
  rcases h1 with h1 | ⟨h1, h1v⟩ <;> rcases h2 with h2 | ⟨h2, h2v⟩
  · exact Or.inl (lt_trans h1 h2)
  · exact Or.inl (h2 ▸ h1)
  · exact Or.inl (h1 ▸ h2)
  · exact Or.inr ⟨h1.trans h2, vle_trans h1v h2v⟩

lemma pairLe_fst {e f : ℚ × VId} (h : pairLe e f = true) : e.1 ≤ f.1 := by
  simp only [pairLe, Bool.or_eq_true, Bool.and_eq_true, decide_eq_true_eq, beq_iff_eq] at h
  rcases h with h | ⟨h, _⟩
  · exact le_of_lt h
  · exact le_of_eq h

/-! ## `popMin` extraction lemmas -/

lemma popMin_eq_none_iff {l : List (ℚ × VId)} : popMin l = none ↔ l = [] := by
  cases l with
  | nil => simp [popMin]
  | cons e rest =>
    simp only [popMin]
    cases popMin rest with
    | none => simp
    | some p =>
      obtain ⟨m, r⟩ := p
      by_cases h : pairLe e m = true <;> simp [h]

lemma popMin_perm : ∀ {l : List (ℚ × VId)} {m : ℚ × VId} {r : List (ℚ × VId)},
    popMin l = some (m, r) → l.Perm (m :: r) := by
  intro l
  induction l with
  | nil => intro m r h; exact Option.noConfusion h
  | cons e rest ih =>
    intro m r h
    cases hp : popMin rest with
    | none =>
      simp only [popMin, hp, Option.some.injEq, Prod.mk.injEq] at h
      obtain ⟨rfl, rfl⟩ := h
      rw [popMin_eq_none_iff] at hp
      subst hp
      exact List.Perm.refl _
    | some p =>
      obtain ⟨m', r'⟩ := p
      simp only [popMin, hp] at h
      by_cases hle : pairLe e m' = true
      · rw [if_pos hle] at h
        simp only [Option.some.injEq, Prod.mk.injEq] at h
        obtain ⟨rfl, rfl⟩ := h
        exact List.Perm.refl _
      · rw [if_neg hle] at h
        simp only [Option.some.injEq, Prod.mk.injEq] at h
        obtain ⟨rfl, rfl⟩ := h
        exact ((ih hp).cons e).trans (List.Perm.swap m' e r')

lemma popMin_min : ∀ {l : List (ℚ × VId)} {m : ℚ × VId} {r : List (ℚ × VId)},
    popMin l = some (m, r) → ∀ e ∈ r, pairLe m e = true := by
  intro l
  induction l with
  | nil => intro m r h; exact Option.noConfusion h
  | cons e rest ih =>
    intro m r h
    cases hp : popMin rest with
    | none =>
      simp only [popMin, hp, Option.some.injEq, Prod.mk.injEq] at h
      obtain ⟨rfl, rfl⟩ := h
      intro x hx
      exact absurd hx (List.not_mem_nil x)
    | some p =>
      obtain ⟨m', r'⟩ := p
      simp only [popMin, hp] at h
      by_cases hle : pairLe e m' = true
      · rw [if_pos hle] at h
        simp only [Option.some.injEq, Prod.mk.injEq] at h
        obtain ⟨rfl, rfl⟩ := h
        intro x hx
        have hx' : x ∈ m' :: r' := (popMin_perm hp).mem_iff.mp hx
        rcases List.mem_cons.mp hx' with h | h
        · exact h ▸ hle
        · exact pairLe_trans hle (ih hp x h)
      · rw [if_neg hle] at h
        simp only [Option.some.injEq, Prod.mk.injEq] at h
        obtain ⟨rfl, rfl⟩ := h
        intro x hx
        rcases List.mem_cons.mp hx with h | h
        · subst h
          rcases pairLe_total m' x with h2 | h2
          · exact h2
          · exact absurd h2 hle
        · exact ih hp x h

/-! ## `oadd` algebra -/

lemma oadd_some_some (a b : ℚ) : oadd (some a) (some b) = some (a + b) := rfl

lemma oadd_zero_left (x : OQ) : oadd (some 0) x = x := by
  cases x with
  | none => rfl
  | some a => simp [oadd]

lemma oadd_zero_right (x : OQ) : oadd x (some 0) = x := by
  cases x with
  | none => rfl
  | some a => simp [oadd]

lemma oadd_assoc (x y z : OQ) : oadd (oadd x y) z = oadd x (oadd y z) := by
  cases x <;> cases y <;> cases z <;> simp [oadd, add_assoc]

lemma oadd_ole_left {x x' : OQ} (y : OQ) (h : ole x x' = true) :
    ole (oadd x y) (oadd x' y) = true := by
  cases y with
  | none => rw [oadd_none_right, oadd_none_right]; exact ole_refl _
  | some b =>
    cases x with
    | none => rw [ole_none_left_iff] at h; subst h; exact ole_refl _
    | some a =>
      cases x' with
      | none => exact ole_none_right _
      | some a' =>
        rw [ole_some_some] at h
        rw [oadd_some_some, oadd_some_some, ole_some_some]
        exact add_le_add_right h b

lemma oadd_ole_right (x : OQ) {y y' : OQ} (h : ole y y' = true) :
    ole (oadd x y) (oadd x y') = true := by
  cases x with
  | none => rw [oadd_none_left, oadd_none_left]; exact ole_refl _
  | some a =>
    cases y with
    | none => rw [ole_none_left_iff] at h; subst h; exact ole_refl _
    | some b =>
      cases y' with
      | none => exact ole_none_right _
      | some b' =>
        rw [ole_some_some] at h
        rw [oadd_some_some, oadd_some_some, ole_some_some]
        exact add_le_add_left h a

/-! ## Characterization of `get_neighbors` -/

lemma lookupI_some_mem {g : RoadGrid} {v : VId} {A : GridIntersection}
    (h : lookupI g v = some A) : v ∈ gridKeys g := by
  rw [lookupI] at h
  cases hf : g.intersections.find? (fun e => e.1 == v) with
  | none => rw [hf] at h; exact Option.noConfusion h
  | some e =>
    have h1 : e ∈ g.intersections := List.mem_of_find?_eq_some hf
    have h2 := List.find?_some hf
    simp only [beq_iff_eq] at h2
    rw [gridKeys]
    exact h2 ▸ List.mem_map_of_mem (·.1) h1

lemma mem_getNeighbors_nonneg {g : RoadGrid} {u : VId} {e : VId × ℚ}
    (h : e ∈ getNeighbors g u) : 0 ≤ e.2 := by
  rw [getNeighbors] at h
  obtain ⟨r, _, hr⟩ := List.mem_filterMap.mp h
  by_cases hc : (r.fromId == u && r.isPassable) = true
  · rw [if_pos hc] at hr
    cases h1 : lookupI g r.fromId with
    | none => rw [h1] at hr; exact Option.noConfusion hr
    | some A =>
      cases h2 : lookupI g r.toId with
      | none => rw [h1, h2] at hr; exact Option.noConfusion hr
      | some B =>
        rw [h1, h2] at hr
        injection hr with hr
        rw [← hr]
        have := abs_nonneg (A.pixelX - B.pixelX)
        have := abs_nonneg (A.pixelY - B.pixelY)
        simp only [euclidQ]
        linarith
  · rw [if_neg hc] at hr
    exact Option.noConfusion hr

lemma mem_getNeighbors_keys {g : RoadGrid} {u : VId} {e : VId × ℚ}
    (h : e ∈ getNeighbors g u) : e.1 ∈ gridKeys g := by
  rw [getNeighbors] at h
  obtain ⟨r, _, hr⟩ := List.mem_filterMap.mp h
  by_cases hc : (r.fromId == u && r.isPassable) = true
  · rw [if_pos hc] at hr
    cases h1 : lookupI g r.fromId with
    | none => rw [h1] at hr; exact Option.noConfusion hr
    | some A =>
      cases h2 : lookupI g r.toId with
      | none => rw [h1, h2] at hr; exact Option.noConfusion hr
      | some B =>
        rw [h1, h2] at hr
        injection hr with hr
        have : e.1 = r.toId := by rw [← hr]
        exact this ▸ lookupI_some_mem h2
  · rw [if_neg hc] at hr
    exact Option.noConfusion hr

lemma mem_getNeighbors_weight {g : RoadGrid} {u : VId} {e : VId × ℚ}
    (h : e ∈ getNeighbors g u) :
    ∃ A B, lookupI g u = some A ∧ lookupI g e.1 = some B ∧ e.2 = euclidQ A B := by
  rw [getNeighbors] at h
  obtain ⟨r, _, hr⟩ := List.mem_filterMap.mp h
  by_cases hc : (r.fromId == u && r.isPassable) = true
  · rw [if_pos hc] at hr
    rw [Bool.and_eq_true, beq_iff_eq] at hc
    cases h1 : lookupI g r.fromId with
    | none => rw [h1] at hr; exact Option.noConfusion hr
    | some A =>
      cases h2 : lookupI g r.toId with
      | none => rw [h1, h2] at hr; exact Option.noConfusion hr
      | some B =>
        rw [h1, h2] at hr
        injection hr with hr
        refine ⟨A, B, ?_, ?_, ?_⟩
        · rw [← hc.1]; exact h1
        · rw [← hr]; exact h2
        · rw [← hr]
  · rw [if_neg hc] at hr
    exact Option.noConfusion hr

/-- Two neighbor entries with the same destination carry the same
weight: the weight is a function of the endpoint ids alone. -/
lemma getNeighbors_weight_fun {g : RoadGrid} {u : VId} {e e' : VId × ℚ}
    (h : e ∈ getNeighbors g u) (h' : e' ∈ getNeighbors g u) (ht : e.1 = e'.1) :
    e.2 = e'.2 := by
  obtain ⟨A, B, h1, h2, h3⟩ := mem_getNeighbors_weight h
  obtain ⟨A', B', h1', h2', h3'⟩ := mem_getNeighbors_weight h'
  rw [h1] at h1'
  injection h1' with h1'
  rw [ht] at h2
  rw [h2] at h2'
  injection h2' with h2'
  rw [h3, h3', h1', h2']

lemma connW_of_mem {g : RoadGrid} {u : VId} {e : VId × ℚ}
    (h : e ∈ getNeighbors g u) : connW g u e.1 = some e.2 := by
  rw [connW]
  cases hf : (getNeighbors g u).find? (fun x => x.1 == e.1) with
  | none =>
    have := List.find?_eq_none.mp hf e h
    simp at this
  | some x =>
    have h1 : x ∈ getNeighbors g u := List.mem_of_find?_eq_some hf
    have h2 := List.find?_some hf
    simp only [beq_iff_eq] at h2
    show some x.2 = some e.2
    rw [getNeighbors_weight_fun h1 h h2]

lemma isConn_of_mem {g : RoadGrid} {u : VId} {e : VId × ℚ}
    (h : e ∈ getNeighbors g u) : isConn g u e.1 = true := by
  rw [isConn, List.any_eq_true]
  exact ⟨e, h, by simp⟩

lemma isConn_iff {g : RoadGrid} {u v : VId} :
    isConn g u v = true ↔ ∃ w, (v, w) ∈ getNeighbors g u := by
  constructor
  · intro h
    rw [isConn, List.any_eq_true] at h
    obtain ⟨e, he, hb⟩ := h
    rw [beq_iff_eq] at hb
    exact ⟨e.2, by rw [← hb]; exact he⟩
  · rintro ⟨w, hw⟩
    exact isConn_of_mem hw

/-! ## `costOf` lemmas -/

lemma costOf_append_single {g : RoadGrid} :
    ∀ {p : List VId} {u : VId}, p.getLast? = some u →
      ∀ v, costOf g (p ++ [v]) = oadd (costOf g p) (connW g u v) := by
  intro p
  induction p with
  | nil => intro u h v; exact Option.noConfusion h
  | cons x rest ih =>
    intro u h v
    cases rest with
    | nil =>
      have hx : x = u := by simpa using h
      subst hx
      show costOf g [x, v] = oadd (costOf g [x]) (connW g x v)
      show oadd (connW g x v) (costOf g [v]) = oadd (costOf g [x]) (connW g x v)
      show oadd (connW g x v) (some 0) = oadd (some 0) (connW g x v)
      rw [oadd_zero_left, oadd_zero_right]
    | cons y rest' =>
      have hlast : (y :: rest').getLast? = some u := by
        rw [List.getLast?_cons_cons] at h
        exact h
      show oadd (connW g x y) (costOf g ((y :: rest') ++ [v]))
          = oadd (oadd (connW g x y) (costOf g (y :: rest'))) (connW g u v)
      rw [ih hlast v, oadd_assoc]

/-! ## Visit-order bookkeeping -/

lemma idxIn_lt_length {l : List VId} {v : VId} (h : v ∈ l) : idxIn l v < l.length := by
  induction l with
  | nil => exact absurd h (List.not_mem_nil v)
  | cons x xs ih =>
    by_cases hx : (x == v) = true
    · simp [idxIn, hx]
    · rw [List.mem_cons] at h
      rcases h with h | h
      · rw [beq_iff_eq] at hx; exact absurd h.symm hx
      · simpa [idxIn, hx] using ih h

lemma idxIn_append_mem {l : List VId} {v : VId} (h : v ∈ l) (t : List VId) :
    idxIn (l ++ t) v = idxIn l v := by
  induction l with
  | nil => exact absurd h (List.not_mem_nil v)
  | cons x xs ih =>
    by_cases hx : (x == v) = true
    · simp [idxIn, hx]
    · rw [List.mem_cons] at h
      rcases h with h | h
      · rw [beq_iff_eq] at hx; exact absurd h.symm hx
      · simp [idxIn, hx, ih h]

lemma idxIn_append_self {l : List VId} {v : VId} (h : v ∉ l) :
    idxIn (l ++ [v]) v = l.length := by
  induction l with
  | nil => simp [idxIn]
  | cons x xs ih =>
    have hx : ¬ (x == v) = true := by
      rw [beq_iff_eq]
      intro hxv
      exact h (hxv ▸ List.mem_cons_self x xs)
    have h2 : v ∉ xs := fun hm => h (List.mem_cons_of_mem x hm)
    simp [idxIn, hx, ih h2]

lemma length_le_idxIn_append {v : VId} :
    ∀ {l : List VId}, v ∉ l → ∀ t, l.length ≤ idxIn (l ++ t) v := by
  intro l
  induction l with
  | nil => intro _ t; exact Nat.zero_le _
  | cons x xs ih =>
    intro h t
    have hx : ¬ (x == v) = true := by
      rw [beq_iff_eq]
      intro hxv
      exact h (hxv ▸ List.mem_cons_self x xs)
    have h2 : v ∉ xs := fun hm => h (List.mem_cons_of_mem x hm)
    simp only [List.cons_append, idxIn, hx, if_false, List.length_cons]
    exact Nat.succ_le_succ (ih h2 t)

lemma before_append {l : List VId} {u v : VId} (h : before l u v) (t : List VId) :
    before (l ++ t) u v := by
  obtain ⟨hu, hlt⟩ := h
  refine ⟨List.mem_append_left t hu, ?_⟩
  rw [idxIn_append_mem hu t]
  by_cases hv : v ∈ l
  · rw [idxIn_append_mem hv t]; exact hlt
  · exact lt_of_lt_of_le (idxIn_lt_length hu) (length_le_idxIn_append hv t)

lemma before_new {l : List VId} {x u : VId} (hx : x ∈ l) (hu : u ∉ l) :
    before (l ++ [u]) x u := by
  refine ⟨List.mem_append_left _ hx, ?_⟩
  rw [idxIn_append_mem hx, idxIn_append_self hu]
  exact idxIn_lt_length hx

/-! ## Single-relaxation lemmas -/

lemma relaxNbr_cases (d : ℚ) (u : VId) (s : DState) (e : VId × ℚ) :
    ((e.1 ∈ s.visited ∨ ¬ olt (some (d + e.2)) (s.dist e.1) = true) ∧ relaxNbr d u s e = s) ∨
    (e.1 ∉ s.visited ∧ olt (some (d + e.2)) (s.dist e.1) = true ∧
      relaxNbr d u s e = { s with
        dist := fun v => if v == e.1 then some (d + e.2) else s.dist v,
        prevM := fun v => if v == e.1 then some u else s.prevM v,
        pq := s.pq ++ [(d + e.2, e.1)] }) := by
  by_cases h1 : e.1 ∈ s.visited
  · exact Or.inl ⟨Or.inl h1, by rw [relaxNbr, if_pos h1]⟩
  · by_cases h2 : olt (some (d + e.2)) (s.dist e.1) = true
    · exact Or.inr ⟨h1, h2, by rw [relaxNbr, if_neg h1, if_pos h2]⟩
    · exact Or.inl ⟨Or.inr h2, by rw [relaxNbr, if_neg h1, if_neg h2]⟩

lemma relaxNbr_visited (d : ℚ) (u : VId) (s : DState) (e : VId × ℚ) :
    (relaxNbr d u s e).visited = s.visited := by
  rcases relaxNbr_cases d u s e with ⟨_, h⟩ | ⟨_, _, h⟩ <;> rw [h]

lemma relaxNbr_dist_ole (d : ℚ) (u : VId) (s : DState) (e : VId × ℚ) (v : VId) :
    ole ((relaxNbr d u s e).dist v) (s.dist v) = true := by
  rcases relaxNbr_cases d u s e with ⟨_, h⟩ | ⟨_, hlt, h⟩
  · rw [h]; exact ole_refl _
  · rw [h]
    by_cases hv : (v == e.1) = true
    · show ole (if (v == e.1) = true then some (d + e.2) else s.dist v) (s.dist v) = true
      rw [if_pos hv, beq_iff_eq] at *
      exact olt_ole (hv ▸ hlt)
    · show ole (if (v == e.1) = true then some (d + e.2) else s.dist v) (s.dist v) = true
      rw [if_neg hv]
      exact ole_refl _

lemma relaxNbr_frozen {d : ℚ} {u : VId} {s : DState} {e : VId × ℚ} {x : VId}
    (hx : x ∈ s.visited) :
    (relaxNbr d u s e).dist x = s.dist x ∧ (relaxNbr d u s e).prevM x = s.prevM x := by
  rcases relaxNbr_cases d u s e with ⟨_, h⟩ | ⟨hnv, _, h⟩
  · rw [h]; exact ⟨rfl, rfl⟩
  · rw [h]
    have hne : ¬ (x == e.1) = true := by
      rw [beq_iff_eq]
      intro hxe
      exact hnv (hxe ▸ hx)
    constructor
    · show (if (x == e.1) = true then some (d + e.2) else s.dist x) = s.dist x
      rw [if_neg hne]
    · show (if (x == e.1) = true then some u else s.prevM x) = s.prevM x
      rw [if_neg hne]

lemma relaxNbr_pq_len (d : ℚ) (u : VId) (s : DState) (e : VId × ℚ) :
    (relaxNbr d u s e).pq.length ≤ s.pq.length + 1 := by
  rcases relaxNbr_cases d u s e with ⟨_, h⟩ | ⟨_, _, h⟩ <;> rw [h] <;> simp

lemma ole_some_right {x : OQ} {b : ℚ} (h : ole x (some b) = true) :
    ∃ a, x = some a ∧ a ≤ b := by
  cases x with
  | none => rw [ole_none_left_iff] at h; exact Option.noConfusion h
  | some a => rw [ole_some_some] at h; exact ⟨a, rfl, h⟩

lemma relaxNbr_rinv {g : RoadGrid} {a : VId} {d : ℚ} {u : VId} {s : DState}
    {e : VId × ℚ} (hinv : RInv g a d u s) (he : e ∈ getNeighbors g u) :
    RInv g a d u (relaxNbr d u s e) := by
  rcases relaxNbr_cases d u s e with ⟨_, h⟩ | ⟨hnv, hlt, h⟩
  · rw [h]; exact hinv
  · rw [h]
    have hw0 : 0 ≤ e.2 := mem_getNeighbors_nonneg he
    have hkey : e.1 ∈ gridKeys g := mem_getNeighbors_keys he
    have hconn : isConn g u e.1 = true := isConn_of_mem he
    have hconnW : connW g u e.1 = some e.2 := connW_of_mem he
    have hune : u ≠ e.1 := fun hx => hnv (hx ▸ hinv.uVis)
    have hae : ¬ (a == e.1) = true := by
      rw [beq_iff_eq]
      intro hax
      rw [← hax, hinv.distA, olt_some_some] at hlt
      have := hinv.dNonneg
      linarith
    refine {
      visSub := hinv.visSub
      visNodup := hinv.visNodup
      distA := ?_
      pqTgt := ?_
      pqNonneg := ?_
      pqDist := ?_
      unvisPq := ?_
      lower := ?_
      prevSpec := ?_
      prevOrd := ?_
      prevNone := ?_
      uVis := hinv.uVis
      distU := ?_
      dNonneg := hinv.dNonneg
      visDistLe := ?_
      pqLb := ?_
      triOld := ?_ }
    · show (if (a == e.1) = true then some (d + e.2) else s.dist a) = some 0
      rw [if_neg hae]; exact hinv.distA
    · intro x hx
      rcases List.mem_append.mp hx with hx | hx
      · exact hinv.pqTgt x hx
      · rw [List.mem_singleton] at hx
        subst hx
        exact hkey
    · intro x hx
      rcases List.mem_append.mp hx with hx | hx
      · exact hinv.pqNonneg x hx
      · rw [List.mem_singleton] at hx
        subst hx
        show 0 ≤ d + e.2
        have := hinv.dNonneg
        linarith
    · intro x hx
      rcases List.mem_append.mp hx with hx | hx
      · obtain ⟨q, hq, hqle⟩ := hinv.pqDist x hx
        by_cases hxe : (x.2 == e.1) = true
        · rw [beq_iff_eq] at hxe
          refine ⟨d + e.2, ?_, ?_⟩
          · show (if (x.2 == e.1) = true then some (d + e.2) else s.dist x.2) = _
            rw [if_pos (beq_iff_eq.mpr hxe)]
          · rw [← hxe] at hlt
            rw [hq, olt_some_some] at hlt
            linarith
        · refine ⟨q, ?_, hqle⟩
          show (if (x.2 == e.1) = true then some (d + e.2) else s.dist x.2) = some q
          rw [if_neg hxe]
          exact hq
      · rw [List.mem_singleton] at hx
        subst hx
        refine ⟨d + e.2, ?_, le_refl _⟩
        show (if (e.1 == e.1) = true then some (d + e.2) else s.dist e.1) = some (d + e.2)
        simp
    · intro v q hv hq
      dsimp only at hv hq ⊢
      by_cases hve : (v == e.1) = true
      · rw [if_pos hve] at hq
        injection hq with hq
        rw [beq_iff_eq] at hve
        subst hve
        rw [← hq]
        exact List.mem_append_right _ (List.mem_singleton.mpr rfl)
      · rw [if_neg hve] at hq
        exact List.mem_append_left _ (hinv.unvisPq v q hv hq)
    · intro v q hq
      dsimp only at hq
      by_cases hve : (v == e.1) = true
      · rw [if_pos hve] at hq
        injection hq with hq
        rw [beq_iff_eq] at hve
        subst hve
        obtain ⟨p, qc, hh, hl, hch, hc, hcle⟩ := hinv.lower u d hinv.distU
        have hpne : p ≠ [] := by
          intro hp
          rw [hp] at hh
          exact Option.noConfusion hh
        refine ⟨p ++ [e.1], qc + e.2, ?_, ?_, ?_, ?_, ?_⟩
        · rw [List.head?_append_of_ne_nil _ hpne]; exact hh
        · exact List.getLast?_concat p
        · rw [List.chain'_append]
          refine ⟨hch, List.chain'_singleton e.1, ?_⟩
          intro x hx y hy
          rw [hl] at hx
          injection hx with hx
          rw [List.head?_cons] at hy
          injection hy with hy
          rw [← hx, ← hy]
          exact hconn
        · rw [costOf_append_single hl e.1, hc, hconnW, oadd_some_some]
        · rw [← hq]
          exact add_le_add_right hcle e.2
      · rw [if_neg hve] at hq
        exact hinv.lower v q hq
    · intro v u' hp
      dsimp only at hp ⊢
      by_cases hve : (v == e.1) = true
      · rw [if_pos hve] at hp
        injection hp with hp
        subst hp
        refine ⟨hinv.uVis, ?_, d + e.2, ?_⟩
        · rw [beq_iff_eq] at hve
          rw [hve]
          exact hconn
        · rw [if_pos hve]
      · rw [if_neg hve] at hp
        obtain ⟨h1, h2, q, h3⟩ := hinv.prevSpec v u' hp
        refine ⟨h1, h2, q, ?_⟩
        rw [if_neg hve]
        exact h3
    · intro v u' hp hv
      dsimp only at hp hv ⊢
      by_cases hve : (v == e.1) = true
      · rw [beq_iff_eq] at hve
        exact absurd (hve ▸ hv) hnv
      · rw [if_neg hve] at hp
        exact hinv.prevOrd v u' hp hv
    · intro v q hq hp
      dsimp only at hq hp
      by_cases hve : (v == e.1) = true
      · rw [if_pos hve] at hp
        exact Option.noConfusion hp
      · rw [if_neg hve] at hp
        rw [if_neg hve] at hq
        exact hinv.prevNone v q hq hp
    · show (if (u == e.1) = true then some (d + e.2) else s.dist u) = some d
      rw [if_neg (by rw [beq_iff_eq]; exact hune)]
      exact hinv.distU
    · intro x hx
      dsimp only at hx ⊢
      obtain ⟨q, hq, hqle⟩ := hinv.visDistLe x hx
      have hne : ¬ (x == e.1) = true := by
        rw [beq_iff_eq]
        intro hxe
        exact hnv (hxe ▸ hx)
      refine ⟨q, ?_, hqle⟩
      rw [if_neg hne]
      exact hq
    · intro x hx
      dsimp only at hx
      rcases List.mem_append.mp hx with hx | hx
      · exact hinv.pqLb x hx
      · rw [List.mem_singleton] at hx
        subst hx
        show d ≤ d + e.2
        linarith
    · intro x hx hxu e' he'
      dsimp only at hx ⊢
      obtain ⟨qx, qv, hdx, hdv, hle⟩ := hinv.triOld x hx hxu e' he'
      have hne : ¬ (x == e.1) = true := by
        rw [beq_iff_eq]
        intro hxe
        exact hnv (hxe ▸ hx)
      refine ⟨qx, ?_⟩
      rw [if_neg hne]
      by_cases hve : (e'.1 == e.1) = true
      · refine ⟨d + e.2, hdx, ?_, ?_⟩
        · rw [if_pos hve]
        · rw [beq_iff_eq] at hve
          rw [← hve] at hlt
          rw [hdv, olt_some_some] at hlt
          linarith
      · refine ⟨qv, hdx, ?_, hle⟩
        rw [if_neg hve]
        exact hdv

lemma relaxNbr_bound {g : RoadGrid} {a : VId} {d : ℚ} {u : VId} {s : DState}
    {e : VId × ℚ} (hinv : RInv g a d u s) (he : e ∈ getNeighbors g u) :
    ∃ qv, (relaxNbr d u s e).dist e.1 = some qv ∧ qv ≤ d + e.2 := by
  by_cases h1 : e.1 ∈ s.visited
  · rw [relaxNbr, if_pos h1]
    obtain ⟨q, hq, hqle⟩ := hinv.visDistLe e.1 h1
    have hw0 : 0 ≤ e.2 := mem_getNeighbors_nonneg he
    exact ⟨q, hq, by linarith⟩
  · by_cases h2 : olt (some (d + e.2)) (s.dist e.1) = true
    · rw [relaxNbr, if_neg h1, if_pos h2]
      refine ⟨d + e.2, ?_, le_refl _⟩
      show (if (e.1 == e.1) = true then some (d + e.2) else s.dist e.1) = some (d + e.2)
      simp
    · rw [relaxNbr, if_neg h1, if_neg h2]
      cases hd : s.dist e.1 with
      | none => rw [hd, olt_some_none] at h2; exact absurd rfl h2
      | some q =>
        refine ⟨q, rfl, ?_⟩
        rw [hd, olt_some_some] at h2
        linarith

/-! ## Folding relaxation over the whole neighbor list -/

lemma relaxFold_rinv {g : RoadGrid} {a : VId} {d : ℚ} {u : VId} :
    ∀ {ns : List (VId × ℚ)} {s : DState}, RInv g a d u s →
      (∀ e ∈ ns, e ∈ getNeighbors g u) →
      RInv g a d u (ns.foldl (relaxNbr d u) s) := by
  intro ns
  induction ns with
  | nil => intro s hinv _; exact hinv
  | cons x xs ih =>
    intro s hinv hsub
    exact ih (relaxNbr_rinv hinv (hsub x (List.mem_cons_self x xs)))
      (fun e he => hsub e (List.mem_cons_of_mem x he))

lemma relaxFold_visited (d : ℚ) (u : VId) :
    ∀ (ns : List (VId × ℚ)) (s : DState),
      (ns.foldl (relaxNbr d u) s).visited = s.visited := by
  intro ns
  induction ns with
  | nil => intro s; rfl
  | cons x xs ih =>
    intro s
    show (xs.foldl (relaxNbr d u) (relaxNbr d u s x)).visited = s.visited
    rw [ih (relaxNbr d u s x), relaxNbr_visited]

lemma relaxFold_dist_ole (d : ℚ) (u : VId) :
    ∀ (ns : List (VId × ℚ)) (s : DState) (v : VId),
      ole ((ns.foldl (relaxNbr d u) s).dist v) (s.dist v) = true := by
  intro ns
  induction ns with
  | nil => intro s v; exact ole_refl _
  | cons x xs ih =>
    intro s v
    exact ole_trans (ih (relaxNbr d u s x) v) (relaxNbr_dist_ole d u s x v)

lemma relaxFold_frozen {d : ℚ} {u : VId} :
    ∀ {l : List (VId × ℚ)} {s : DState} {x : VId}, x ∈ s.visited →
      (l.foldl (relaxNbr d u) s).dist x = s.dist x ∧
      (l.foldl (relaxNbr d u) s).prevM x = s.prevM x := by
  intro l
  induction l with
  | nil => intro s x _; exact ⟨rfl, rfl⟩
  | cons e es ih =>
    intro s x hx
    have hx' : x ∈ (relaxNbr d u s e).visited := by rw [relaxNbr_visited]; exact hx
    obtain ⟨h1, h2⟩ := ih hx'
    obtain ⟨h3, h4⟩ := relaxNbr_frozen hx (e := e) (d := d) (u := u)
    exact ⟨h1.trans h3, h2.trans h4⟩

lemma relaxFold_pq_len (d : ℚ) (u : VId) :
    ∀ (ns : List (VId × ℚ)) (s : DState),
      (ns.foldl (relaxNbr d u) s).pq.length ≤ s.pq.length + ns.length := by
  intro ns
  induction ns with
  | nil => intro s; simp
  | cons x xs ih =>
    intro s
    have h1 := ih (relaxNbr d u s x)
    have h2 := relaxNbr_pq_len d u s x
    rw [List.foldl_cons, List.length_cons]
    omega

lemma relaxFold_bound {g : RoadGrid} {a : VId} {d : ℚ} {u : VId} :
    ∀ {ns : List (VId × ℚ)} {s : DState}, RInv g a d u s →
      (∀ e ∈ ns, e ∈ getNeighbors g u) →
      ∀ e ∈ ns, ∃ qv, (ns.foldl (relaxNbr d u) s).dist e.1 = some qv ∧ qv ≤ d + e.2 := by
  intro ns
  induction ns with
  | nil => intro s _ _ e he; exact absurd he (List.not_mem_nil e)
  | cons x xs ih =>
    intro s hinv hsub e he
    have hxn : x ∈ getNeighbors g u := hsub x (List.mem_cons_self x xs)
    have hinv' : RInv g a d u (relaxNbr d u s x) := relaxNbr_rinv hinv hxn
    rcases List.mem_cons.mp he with he' | he'
    · obtain ⟨qv, hqv, hle⟩ := relaxNbr_bound hinv hxn
      have hmono := relaxFold_dist_ole d u xs (relaxNbr d u s x) x.1
      rw [hqv] at hmono
      obtain ⟨qv', heq, hle'⟩ := ole_some_right hmono
      rw [he', List.foldl_cons]
      exact ⟨qv', heq, by linarith⟩
    · exact ih hinv' (fun e'' he'' => hsub e'' (List.mem_cons_of_mem x he'')) e he'

/-! ## One iteration of the Dijkstra loop -/

lemma pop_dist_eq {g : RoadGrid} {a : VId} {s : DState} {d : ℚ} {u : VId}
    {rest : List (ℚ × VId)} (hinv : DInv g a s)
    (hpop : popMin s.pq = some ((d, u), rest)) (hnv : u ∉ s.visited) :
    s.dist u = some d := by
  have hperm := popMin_perm hpop
  have hmem : (d, u) ∈ s.pq := hperm.symm.subset (List.mem_cons_self _ _)
  obtain ⟨q, hq, hqle⟩ := hinv.pqDist (d, u) hmem
  have hqpq : (q, u) ∈ s.pq := hinv.unvisPq u q hnv hq
  have : (q, u) ∈ (d, u) :: rest := hperm.subset hqpq
  rcases List.mem_cons.mp this with h | h
  · injection h with h1 _
    rw [hq, h1]
  · have := pairLe_fst (popMin_min hpop (q, u) h)
    have hqd : q = d := le_antisymm hqle this
    rw [hq, hqd]

lemma dinv_of_stale {g : RoadGrid} {a : VId} {s : DState} {d : ℚ} {u : VId}
    {rest : List (ℚ × VId)} (hinv : DInv g a s)
    (hpop : popMin s.pq = some ((d, u), rest)) (hvis : u ∈ s.visited) :
    DInv g a { s with pq := rest } := by
  have hperm := popMin_perm hpop
  have hsub : ∀ e ∈ rest, e ∈ s.pq := fun e he =>
    hperm.symm.subset (List.mem_cons_of_mem _ he)
  refine {
    visSub := hinv.visSub
    visNodup := hinv.visNodup
    distA := hinv.distA
    pqTgt := fun e he => hinv.pqTgt e (hsub e he)
    pqNonneg := fun e he => hinv.pqNonneg e (hsub e he)
    pqDist := fun e he => hinv.pqDist e (hsub e he)
    unvisPq := ?_
    visPq := fun v hv e he => hinv.visPq v hv e (hsub e he)
    visFinite := hinv.visFinite
    tri := hinv.tri
    lower := hinv.lower
    prevSpec := hinv.prevSpec
    prevOrd := hinv.prevOrd
    prevNone := hinv.prevNone }
  intro v q hv hq
  have hmem : (q, v) ∈ s.pq := hinv.unvisPq v q hv hq
  have : (q, v) ∈ (d, u) :: rest := hperm.subset hmem
  rcases List.mem_cons.mp this with h | h
  · injection h with _ h2
    exact absurd (h2 ▸ hvis) hv
  · exact h

lemma dstep_dinv {g : RoadGrid} {a : VId} {s : DState} {d : ℚ} {u : VId}
    {rest : List (ℚ × VId)} (hinv : DInv g a s)
    (hpop : popMin s.pq = some ((d, u), rest)) (hnv : u ∉ s.visited) :
    DInv g a (dstep g d u rest s) ∧
    (dstep g d u rest s).visited = s.visited ++ [u] ∧
    (dstep g d u rest s).pq.length ≤ rest.length + (getNeighbors g u).length ∧
    (dstep g d u rest s).dist u = some d := by
  have hperm := popMin_perm hpop
  have hmem : (d, u) ∈ s.pq := hperm.symm.subset (List.mem_cons_self _ _)
  have hrest : ∀ e ∈ rest, e ∈ s.pq := fun e he =>
    hperm.symm.subset (List.mem_cons_of_mem _ he)
  have hmin : ∀ e ∈ rest, pairLe (d, u) e = true := popMin_min hpop
  have hdu : s.dist u = some d := pop_dist_eq hinv hpop hnv
  have hd0 : 0 ≤ d := hinv.pqNonneg (d, u) hmem
  -- the state entering the relaxation fold
  have hstart : RInv g a d u { s with visited := s.visited ++ [u], pq := rest } := by
    refine {
      visSub := ?_
      visNodup := ?_
      distA := hinv.distA
      pqTgt := fun e he => hinv.pqTgt e (hrest e he)
      pqNonneg := fun e he => hinv.pqNonneg e (hrest e he)
      pqDist := fun e he => hinv.pqDist e (hrest e he)
      unvisPq := ?_
      lower := hinv.lower
      prevSpec := ?_
      prevOrd := ?_
      prevNone := hinv.prevNone
      uVis := List.mem_append_right _ (List.mem_singleton.mpr rfl)
      distU := hdu
      dNonneg := hd0
      visDistLe := ?_
      pqLb := fun e he => pairLe_fst (hmin e he)
      triOld := ?_ }
    · intro v hv
      rcases List.mem_append.mp hv with hv | hv
      · exact hinv.visSub v hv
      · rw [List.mem_singleton] at hv
        subst hv
        exact hinv.pqTgt (d, v) hmem
    · exact List.Nodup.append hinv.visNodup (List.nodup_singleton u)
        (List.disjoint_singleton.mpr hnv)
    · intro v q hv hq
      have hv1 : v ∉ s.visited := fun h => hv (List.mem_append_left _ h)
      have hv2 : v ≠ u := by
        intro h
        exact hv (h ▸ List.mem_append_right _ (List.mem_singleton.mpr rfl))
      have hmem2 : (q, v) ∈ s.pq := hinv.unvisPq v q hv1 hq
      have : (q, v) ∈ (d, u) :: rest := hperm.subset hmem2
      rcases List.mem_cons.mp this with h | h
      · injection h with _ h2
        exact absurd h2 hv2
      · exact h
    · intro v u' hp
      obtain ⟨h1, h2, h3⟩ := hinv.prevSpec v u' hp
      exact ⟨List.mem_append_left _ h1, h2, h3⟩
    · intro v u' hp hv
      rcases List.mem_append.mp hv with hv | hv
      · exact before_append (hinv.prevOrd v u' hp hv) [u]
      · rw [List.mem_singleton] at hv
        subst hv
        obtain ⟨h1, _, _⟩ := hinv.prevSpec v u' hp
        exact before_new h1 hnv
    · intro x hx
      rcases List.mem_append.mp hx with hx | hx
      · obtain ⟨q, hq, hqle⟩ := hinv.visPq x hx (d, u) hmem
        exact ⟨q, hq, hqle⟩
      · rw [List.mem_singleton] at hx
        subst hx
        exact ⟨d, hdu, le_refl d⟩
    · intro x hx hxu e he
      rcases List.mem_append.mp hx with hx | hx
      · exact hinv.tri x hx e he
      · rw [List.mem_singleton] at hx
        exact absurd hx hxu
  -- run the fold
  have hfold : RInv g a d u (dstep g d u rest s) :=
    relaxFold_rinv hstart (fun e he => he)
  have hvis2 : (dstep g d u rest s).visited = s.visited ++ [u] := by
    rw [dstep, relaxFold_visited]
  have hfrozu : (dstep g d u rest s).dist u = some d := hfold.distU
  refine ⟨?_, hvis2, ?_, hfrozu⟩
  · refine {
      visSub := hfold.visSub
      visNodup := hfold.visNodup
      distA := hfold.distA
      pqTgt := hfold.pqTgt
      pqNonneg := hfold.pqNonneg
      pqDist := hfold.pqDist
      unvisPq := hfold.unvisPq
      visPq := ?_
      visFinite := ?_
      tri := ?_
      lower := hfold.lower
      prevSpec := hfold.prevSpec
      prevOrd := hfold.prevOrd
      prevNone := hfold.prevNone }
    · intro v hv e he
      obtain ⟨q, hq, hqle⟩ := hfold.visDistLe v hv
      exact ⟨q, hq, le_trans hqle (hfold.pqLb e he)⟩
    · intro v hv
      obtain ⟨q, hq, _⟩ := hfold.visDistLe v hv
      exact ⟨q, hq⟩
    · intro x hx e he
      by_cases hxu : x = u
      · subst hxu
        obtain ⟨qv, hqv, hle⟩ := relaxFold_bound hstart (fun e' he' => he') e he
        exact ⟨d, qv, hfold.distU, hqv, hle⟩
      · exact hfold.triOld x hx hxu e he
  · have h1 := relaxFold_pq_len d u (getNeighbors g u)
      { s with visited := s.visited ++ [u], pq := rest }
    exact h1

/-! ## The full loop -/

lemma dloopF_dinv {g : RoadGrid} {a : VId} :
    ∀ (n : Nat) {s : DState}, DInv g a s → DInv g a (dloopF g n s) := by
  intro n
  induction n with
  | zero => intro s hinv; exact hinv
  | succ k ih =>
    intro s hinv
    cases hpop : popMin s.pq with
    | none => rw [dloopF, hpop]; exact hinv
    | some p =>
      obtain ⟨⟨d, u⟩, rest⟩ := p
      simp only [dloopF, hpop]
      by_cases hvis : u ∈ s.visited
      · rw [if_pos hvis]
        exact ih (dinv_of_stale hinv hpop hvis)
      · rw [if_neg hvis]
        exact ih (dstep_dinv hinv hpop hvis).1

lemma dloopF_frozen {g : RoadGrid} :
    ∀ (n : Nat) {s : DState} {x : VId}, x ∈ s.visited →
      (dloopF g n s).dist x = s.dist x ∧ x ∈ (dloopF g n s).visited := by
  intro n
  induction n with
  | zero => intro s x hx; exact ⟨rfl, hx⟩
  | succ k ih =>
    intro s x hx
    cases hpop : popMin s.pq with
    | none => rw [dloopF, hpop]; exact ⟨rfl, hx⟩
    | some p =>
      obtain ⟨⟨d, u⟩, rest⟩ := p
      simp only [dloopF, hpop]
      by_cases hvis : u ∈ s.visited
      · rw [if_pos hvis]
        exact ih hx
      · rw [if_neg hvis]
        have hx1 : x ∈ ({ s with visited := s.visited ++ [u], pq := rest } : DState).visited :=
          List.mem_append_left _ hx
        have hfr := relaxFold_frozen (d := d) (u := u) (l := getNeighbors g u) hx1
        have hx2 : x ∈ (dstep g d u rest s).visited := by
          rw [dstep, relaxFold_visited]
          exact List.mem_append_left _ hx
        obtain ⟨h1, h2⟩ := ih hx2
        refine ⟨?_, h2⟩
        rw [h1, dstep, hfr.1]

/-! ## Termination: the queue drains within `dFuel` steps -/

lemma filter_sub_mono (V : List VId) (u : VId) :
    ∀ (l : List VId),
      (l.filter (fun k => decide (k ∉ V ++ [u]))).length ≤
      (l.filter (fun k => decide (k ∉ V))).length := by
  intro l
  induction l with
  | nil => exact Nat.le_refl 0
  | cons x xs ih =>
    simp only [List.filter_cons, decide_eq_true_eq]
    by_cases h1 : x ∉ V ++ [u]
    · have h2 : x ∉ V := fun hm => h1 (List.mem_append_left _ hm)
      rw [if_pos h1, if_pos h2]
      simp only [List.length_cons]
      exact Nat.succ_le_succ ih
    · by_cases h2 : x ∉ V
      · rw [if_neg h1, if_pos h2]
        simp only [List.length_cons]
        exact Nat.le_succ_of_le ih
      · rw [if_neg h1, if_neg h2]
        exact ih

lemma filter_not_append_lt (u : VId) :
    ∀ (l V : List VId), u ∈ l → u ∉ V →
      (l.filter (fun k => decide (k ∉ V ++ [u]))).length <
      (l.filter (fun k => decide (k ∉ V))).length := by
  intro l
  induction l with
  | nil => intro V h; exact absurd h (List.not_mem_nil u)
  | cons x xs ih =>
    intro V hul hnv
    simp only [List.filter_cons, decide_eq_true_eq]
    by_cases hx : x = u
    · subst hx
      have h1 : ¬ x ∉ V ++ [x] := fun h =>
        h (List.mem_append_right _ (List.mem_singleton.mpr rfl))
      rw [if_neg h1, if_pos hnv]
      simp only [List.length_cons]
      exact Nat.lt_succ_of_le (filter_sub_mono V x xs)
    · have hxs : u ∈ xs := by
        rcases List.mem_cons.mp hul with h | h
        · exact absurd h.symm hx
        · exact h
      by_cases h2 : x ∉ V
      · have h1 : x ∉ V ++ [u] := by
          intro hm
          rcases List.mem_append.mp hm with hm | hm
          · exact h2 hm
          · rw [List.mem_singleton] at hm
            exact hx hm
        rw [if_pos h1, if_pos h2]
        simp only [List.length_cons]
        exact Nat.succ_lt_succ (ih V hxs hnv)
      · have h1 : ¬ x ∉ V ++ [u] := fun h =>
          h2 (fun hm => h (List.mem_append_left _ hm))
        rw [if_neg h1, if_neg h2]
        exact ih V hxs hnv

lemma unvisCnt_dstep_lt {g : RoadGrid} {s : DState} {d : ℚ} {u : VId}
    {rest : List (ℚ × VId)} (hu : u ∈ gridKeys g) (hnv : u ∉ s.visited) :
    unvisCnt g (dstep g d u rest s) < unvisCnt g s := by
  have hv : (dstep g d u rest s).visited = s.visited ++ [u] := by
    rw [dstep, relaxFold_visited]
  rw [unvisCnt, unvisCnt, hv]
  exact filter_not_append_lt u (gridKeys g) s.visited hu hnv

lemma unvisCnt_le_keys (g : RoadGrid) (s : DState) :
    unvisCnt g s ≤ g.intersections.length := by
  rw [unvisCnt]
  calc ((gridKeys g).filter _).length ≤ (gridKeys g).length := List.length_filter_le _ _
    _ = g.intersections.length := by rw [gridKeys, List.length_map]

lemma dloopF_drain {g : RoadGrid} {a : VId} :
    ∀ (n : Nat) {s : DState}, DInv g a s → dMeasure g s ≤ n →
      (dloopF g n s).pq = [] := by
  intro n
  induction n with
  | zero =>
    intro s _ hm
    rw [dMeasure] at hm
    have : s.pq.length = 0 := by omega
    exact List.length_eq_zero.mp this
  | succ k ih =>
    intro s hinv hm
    cases hpop : popMin s.pq with
    | none =>
      rw [dloopF, hpop]
      exact popMin_eq_none_iff.mp hpop
    | some p =>
      obtain ⟨⟨d, u⟩, rest⟩ := p
      have hlen : s.pq.length = rest.length + 1 := by
        rw [(popMin_perm hpop).length_eq]
        rfl
      simp only [dloopF, hpop]
      by_cases hvis : u ∈ s.visited
      · rw [if_pos hvis]
        refine ih (dinv_of_stale hinv hpop hvis) ?_
        rw [dMeasure] at hm ⊢
        have hcnt : unvisCnt g { s with pq := rest } = unvisCnt g s := rfl
        rw [hcnt]
        simp only [] at hm ⊢
        omega
      · rw [if_neg hvis]
        obtain ⟨hdinv, hvis2, hpq2, _⟩ := dstep_dinv hinv hpop hvis
        refine ih hdinv ?_
        have hu : u ∈ gridKeys g :=
          hinv.pqTgt (d, u) ((popMin_perm hpop).symm.subset (List.mem_cons_self _ _))
        have hU : unvisCnt g (dstep g d u rest s) < unvisCnt g s :=
          unvisCnt_dstep_lt hu hvis
        have hnbr : (getNeighbors g u).length ≤ g.roads.length := by
          rw [getNeighbors]
          exact List.length_filterMap_le _ _
        rw [dMeasure] at hm ⊢
        have hmul : (g.roads.length + 1) * unvisCnt g (dstep g d u rest s)
            + (g.roads.length + 1) ≤ (g.roads.length + 1) * unvisCnt g s := by
          have h1 : unvisCnt g (dstep g d u rest s) + 1 ≤ unvisCnt g s := hU
          calc (g.roads.length + 1) * unvisCnt g (dstep g d u rest s) + (g.roads.length + 1)
              = (g.roads.length + 1) * (unvisCnt g (dstep g d u rest s) + 1) := by ring
            _ ≤ (g.roads.length + 1) * unvisCnt g s := Nat.mul_le_mul_left _ h1
        omega

/-! ## The initial state and the finished run -/

lemma dinit_dinv {g : RoadGrid} {a : VId} (ha : a ∈ gridKeys g) :
    DInv g a (dinit a) := by
  refine {
    visSub := ?_
    visNodup := List.nodup_nil
    distA := ?_
    pqTgt := ?_
    pqNonneg := ?_
    pqDist := ?_
    unvisPq := ?_
    visPq := ?_
    visFinite := ?_
    tri := ?_
    lower := ?_
    prevSpec := ?_
    prevOrd := ?_
    prevNone := ?_ }
  · intro v hv; exact absurd hv (List.not_mem_nil v)
  · show (if (a == a) = true then some 0 else none) = some 0
    simp
  · intro e he
    rw [show (dinit a).pq = [(0, a)] from rfl, List.mem_singleton] at he
    subst he
    exact ha
  · intro e he
    rw [show (dinit a).pq = [(0, a)] from rfl, List.mem_singleton] at he
    subst he
    exact le_refl 0
  · intro e he
    rw [show (dinit a).pq = [(0, a)] from rfl, List.mem_singleton] at he
    subst he
    refine ⟨0, ?_, le_refl 0⟩
    show (if (a == a) = true then some 0 else none) = some 0
    simp
  · intro v q _ hq
    by_cases hv : (v == a) = true
    · rw [show (dinit a).dist v = (if (v == a) = true then some 0 else none) from rfl,
        if_pos hv] at hq
      injection hq with hq
      rw [beq_iff_eq] at hv
      subst hv
      rw [← hq]
      exact List.mem_singleton.mpr rfl
    · rw [show (dinit a).dist v = (if (v == a) = true then some 0 else none) from rfl,
        if_neg hv] at hq
      exact Option.noConfusion hq
  · intro v hv; exact absurd hv (List.not_mem_nil v)
  · intro v hv; exact absurd hv (List.not_mem_nil v)
  · intro u hu; exact absurd hu (List.not_mem_nil u)
  · intro v q hq
    by_cases hv : (v == a) = true
    · rw [show (dinit a).dist v = (if (v == a) = true then some 0 else none) from rfl,
        if_pos hv] at hq
      injection hq with hq
      rw [beq_iff_eq] at hv
      subst hv
      refine ⟨[v], 0, rfl, rfl, List.chain'_singleton v, rfl, ?_⟩
      rw [← hq]
    · rw [show (dinit a).dist v = (if (v == a) = true then some 0 else none) from rfl,
        if_neg hv] at hq
      exact Option.noConfusion hq
  · intro v u hp
    exact Option.noConfusion hp
  · intro v u hp
    exact Option.noConfusion hp
  · intro v q hq _
    by_cases hv : (v == a) = true
    · rw [beq_iff_eq] at hv
      exact hv
    · rw [show (dinit a).dist v = (if (v == a) = true then some 0 else none) from rfl,
        if_neg hv] at hq
      exact Option.noConfusion hq

lemma dMeasure_init_le (g : RoadGrid) (a : VId) : dMeasure g (dinit a) ≤ dFuel g := by
  rw [dMeasure, dFuel]
  have h1 : unvisCnt g (dinit a) ≤ g.intersections.length := unvisCnt_le_keys g (dinit a)
  have h2 : (g.roads.length + 1) * unvisCnt g (dinit a)
      ≤ (g.roads.length + 1) * g.intersections.length := Nat.mul_le_mul_left _ h1
  have h3 : (g.roads.length + 1) * (g.intersections.length + 1)
      = (g.roads.length + 1) * g.intersections.length + (g.roads.length + 1) := by ring
  have h4 : (dinit a).pq.length = 1 := rfl
  omega

lemma dRun_dinv {g : RoadGrid} {a : VId} (ha : a ∈ gridKeys g) : DInv g a (dRun g a) :=
  dloopF_dinv (dFuel g) (dinit_dinv ha)

lemma dRun_pq_nil {g : RoadGrid} {a : VId} (ha : a ∈ gridKeys g) : (dRun g a).pq = [] :=
  dloopF_drain (dFuel g) (dinit_dinv ha) (dMeasure_init_le g a)

lemma finite_visited {g : RoadGrid} {a : VId} {s : DState} (hinv : DInv g a s)
    (hpq : s.pq = []) {v : VId} {q : ℚ} (hq : s.dist v = some q) : v ∈ s.visited := by
  by_contra hnv
  have := hinv.unvisPq v q hnv hq
  rw [hpq] at this
  exact absurd this (List.not_mem_nil _)

lemma final_upper {g : RoadGrid} {a : VId} {s : DState} (hinv : DInv g a s)
    (hpq : s.pq = []) :
    ∀ p : List VId, p ≠ [] → p.head? = some a →
      List.Chain' (fun x y => isConn g x y = true) p →
      ∀ v, p.getLast? = some v →
      ∃ q qc, s.dist v = some q ∧ costOf g p = some qc ∧ q ≤ qc := by
  intro p
  induction p using List.reverseRecOn with
  | nil => intro h; exact absurd rfl h
  | append_singleton p' v' ih =>
    intro _ hh hch v hl
    rw [List.getLast?_concat] at hl
    injection hl with hl
    subst hl
    cases hp' : p' with
    | nil =>
      subst hp'
      rw [List.nil_append, List.head?_cons] at hh
      injection hh with hh
      subst hh
      exact ⟨0, 0, hinv.distA, rfl, le_refl 0⟩
    | cons x rest =>
      have hne : p' ≠ [] := by rw [hp']; exact List.cons_ne_nil x rest
      rw [← hp'] at *
      rw [List.head?_append_of_ne_nil _ hne] at hh
      obtain ⟨hch1, _, hcond⟩ := List.chain'_append.mp hch
      cases hgl : p'.getLast? with
      | none => exact absurd (List.getLast?_eq_none_iff.mp hgl) hne
      | some u' =>
        obtain ⟨q', qc', hd', hc', hle'⟩ := ih hne hh hch1 u' hgl
        have hconn : isConn g u' v' = true := hcond u' hgl v' rfl
        have hvis : u' ∈ s.visited := finite_visited hinv hpq hd'
        obtain ⟨w, hw⟩ := isConn_iff.mp hconn
        obtain ⟨qu, qv, hqu, hqv, hineq⟩ := hinv.tri u' hvis (v', w) hw
        have hquq : qu = q' := by
          rw [hd'] at hqu
          injection hqu with h
          exact h.symm
        have hcw : connW g u' v' = some w := connW_of_mem hw
        refine ⟨qv, qc' + w, hqv, ?_, ?_⟩
        · rw [costOf_append_single hgl v', hc', hcw, oadd_some_some]
        · rw [hquq] at hineq
          linarith

lemma dRun_reach_finite {g : RoadGrid} {a b : VId} (ha : a ∈ gridKeys g)
    (hr : Reachable g a b) : ∃ q, (dRun g a).dist b = some q := by
  obtain ⟨p, hh, hl, hch⟩ := hr
  have hne : p ≠ [] := by
    intro h
    rw [h] at hh
    exact Option.noConfusion hh
  obtain ⟨q, qc, hq, _, _⟩ :=
    final_upper (dRun_dinv ha) (dRun_pq_nil ha) p hne hh hch b hl
  exact ⟨q, hq⟩

lemma dRun_unreach_none {g : RoadGrid} {a b : VId} (ha : a ∈ gridKeys g)
    (hnr : ¬ Reachable g a b) : (dRun g a).dist b = none := by
  cases hd : (dRun g a).dist b with
  | none => rfl
  | some q =>
    obtain ⟨p, qc, hh, hl, hch, _, _⟩ := (dRun_dinv ha).lower b q hd
    exact absurd ⟨p, hh, hl, hch⟩ hnr

/-! ## `_dijkstra_distance` computes the full run's final distance -/

lemma ddistF_eq {g : RoadGrid} {a b : VId} :
    ∀ (n : Nat) {s : DState}, DInv g a s → ddistF g b n s = (dloopF g n s).dist b := by
  intro n
  induction n with
  | zero => intro s _; rfl
  | succ k ih =>
    intro s hinv
    cases hpop : popMin s.pq with
    | none => rw [ddistF, hpop, dloopF, hpop]
    | some p =>
      obtain ⟨⟨d, u⟩, rest⟩ := p
      simp only [ddistF, dloopF, hpop]
      by_cases hvis : u ∈ s.visited
      · rw [if_pos hvis, if_pos hvis]
        exact ih (dinv_of_stale hinv hpop hvis)
      · rw [if_neg hvis, if_neg hvis]
        by_cases hub : (u == b) = true
        · rw [if_pos hub]
          rw [beq_iff_eq] at hub
          subst hub
          obtain ⟨hdinv, hvis2, _, hdu⟩ := dstep_dinv hinv hpop hvis
          have hmem : u ∈ (dstep g d u rest s).visited := by
            rw [hvis2]
            exact List.mem_append_right _ (List.mem_singleton.mpr rfl)
          obtain ⟨hfr, _⟩ := dloopF_frozen (g := g) k hmem
          rw [hfr, hdu]
        · rw [if_neg hub]
          exact ih (dstep_dinv hinv hpop hvis).1

lemma dijkstraDistance_eq_dRun {g : RoadGrid} {a b : VId} (ha : a ∈ gridKeys g) :
    dijkstraDistance g a b = (dRun g a).dist b :=
  ddistF_eq (dFuel g) (dinit_dinv ha)

lemma dijkstraDistance_none_iff {g : RoadGrid} {a b : VId} (ha : a ∈ gridKeys g) :
    dijkstraDistance g a b = none ↔ ¬ Reachable g a b := by
  rw [dijkstraDistance_eq_dRun ha]
  constructor
  · intro h hr
    obtain ⟨q, hq⟩ := dRun_reach_finite ha hr
    rw [h] at hq
    exact Option.noConfusion hq
  · exact dRun_unreach_none ha

/-! ## C3: the unreachable case of `_dijkstra_path` -/

/-- C3 (amended): when no passable path from `a` to `b` exists,
`_dijkstra_path` returns the one-element sequence `[b]` (not the empty
sequence): `previous[b]` is still `None`, so the reconstruction loop
collects only `b` itself. -/
theorem C3_unreachable_singleton (g : RoadGrid) (a b : VId)
    (ha : a ∈ gridKeys g) (hnr : ¬ Reachable g a b) :
    dijkstraPath g a b = [b] := by
  have hnone : (dRun g a).dist b = none := dRun_unreach_none ha hnr
  have hprev : (dRun g a).prevM b = none := by
    cases hp : (dRun g a).prevM b with
    | none => rfl
    | some u =>
      obtain ⟨_, _, q, hq⟩ := (dRun_dinv ha).prevSpec b u hp
      rw [hnone] at hq
      exact Option.noConfusion hq
  rw [dijkstraPath, backtrack, hprev]

/-- Witness for `C3_unreachable_singleton` on the blocked 2×1 grid. -/
theorem C3_unreachable_singleton_witness :
    ((0, 0) ∈ gridKeys wg21b ∧ ¬ Reachable wg21b (0, 0) (1, 0)) ∧
    dijkstraPath wg21b (0, 0) (1, 0) = [(1, 0)] :=
  ⟨⟨by decide, not_reachable_of_no_neighbors _ _ _ (by decide) (by decide)⟩,
    C3_unreachable_singleton wg21b (0, 0) (1, 0) (by decide)
      (not_reachable_of_no_neighbors _ _ _ (by decide) (by decide))⟩

/-! ## C7: validity of the reconstructed path -/

lemma mem_getNeighbors_road {g : RoadGrid} {u : VId} {e : VId × ℚ}
    (h : e ∈ getNeighbors g u) : isRoad g u e.1 = true := by
  rw [getNeighbors] at h
  obtain ⟨r, hr0, hr⟩ := List.mem_filterMap.mp h
  by_cases hc : (r.fromId == u && r.isPassable) = true
  · rw [if_pos hc] at hr
    cases h1 : lookupI g r.fromId with
    | none => rw [h1] at hr; exact Option.noConfusion hr
    | some A =>
      cases h2 : lookupI g r.toId with
      | none => rw [h1, h2] at hr; exact Option.noConfusion hr
      | some B =>
        rw [h1, h2] at hr
        injection hr with hr
        rw [isRoad, List.any_eq_true]
        refine ⟨r, hr0, ?_⟩
        rw [Bool.and_eq_true] at hc ⊢
        refine ⟨?_, hc.2⟩
        rw [Bool.and_eq_true]
        refine ⟨hc.1, ?_⟩
        rw [beq_iff_eq]
        rw [← hr]
  · rw [if_neg hc] at hr
    exact Option.noConfusion hr

lemma isConn_isRoad {g : RoadGrid} {u v : VId} (h : isConn g u v = true) :
    isRoad g u v = true := by
  obtain ⟨w, hw⟩ := isConn_iff.mp h
  exact mem_getNeighbors_road hw

lemma backtrack_ne_nil (pm : VId → Option VId) :
    ∀ (n : Nat) (c : VId), backtrack pm n c ≠ [] := by
  intro n c
  cases n with
  | zero => exact List.cons_ne_nil c []
  | succ k =>
    rw [backtrack]
    cases pm c with
    | none => exact List.cons_ne_nil c []
    | some u => simp

lemma backtrack_spec {g : RoadGrid} {a : VId} {s : DState} (hinv : DInv g a s) :
    ∀ (n : Nat) (c : VId), c ∈ s.visited → idxIn s.visited c < n →
      (backtrack s.prevM n c).head? = some a ∧
      (backtrack s.prevM n c).getLast? = some c ∧
      List.Chain' (fun x y => isConn g x y = true) (backtrack s.prevM n c) := by
  intro n
  induction n with
  | zero => intro c _ h; omega
  | succ k ih =>
    intro c hc hidx
    cases hp : s.prevM c with
    | none =>
      obtain ⟨q, hq⟩ := hinv.visFinite c hc
      have hca : c = a := hinv.prevNone c q hq hp
      simp only [backtrack, hp]
      subst hca
      exact ⟨rfl, rfl, List.chain'_singleton c⟩
    | some u' =>
      obtain ⟨hu'vis, hconn, _⟩ := hinv.prevSpec c u' hp
      obtain ⟨_, hord⟩ := hinv.prevOrd c u' hp hc
      have hlt : idxIn s.visited u' < k := by omega
      obtain ⟨ihh, ihl, ihch⟩ := ih u' hu'vis hlt
      simp only [backtrack, hp]
      refine ⟨?_, List.getLast?_concat _, ?_⟩
      · rw [List.head?_append_of_ne_nil _ (backtrack_ne_nil _ k u')]
        exact ihh
      · rw [List.chain'_append]
        refine ⟨ihch, List.chain'_singleton c, ?_⟩
        intro x hx y hy
        rw [ihl] at hx
        injection hx with hx
        rw [List.head?_cons] at hy
        injection hy with hy
        rw [← hx, ← hy]
        exact hconn

/-- C7: when a passable path from `a` to `b` exists, `_dijkstra_path`
returns a sequence that starts at `a`, ends at `b`, and whose every
consecutive pair is a passable road segment of the grid. -/
theorem C7_path_valid (g : RoadGrid) (a b : VId) (ha : a ∈ gridKeys g)
    (hr : Reachable g a b) :
    (dijkstraPath g a b).head? = some a ∧
    (dijkstraPath g a b).getLast? = some b ∧
    List.Chain' (fun u v => isRoad g u v = true) (dijkstraPath g a b) := by
  obtain ⟨q, hq⟩ := dRun_reach_finite ha hr
  have hinv := dRun_dinv ha
  have hbv : b ∈ (dRun g a).visited := finite_visited hinv (dRun_pq_nil ha) hq
  have hsub : (dRun g a).visited ⊆ gridKeys g := fun x hx => hinv.visSub x hx
  have hlen : (dRun g a).visited.length ≤ (gridKeys g).length :=
    (hinv.visNodup.subperm hsub).length_le
  have hkeys : (gridKeys g).length = g.intersections.length := by
    rw [gridKeys, List.length_map]
  have hidx : idxIn (dRun g a).visited b < g.intersections.length + 1 := by
    have := idxIn_lt_length hbv
    omega
  obtain ⟨h1, h2, h3⟩ := backtrack_spec hinv (g.intersections.length + 1) b hbv hidx
  exact ⟨h1, h2, h3.imp (fun {x y} hxy => isConn_isRoad hxy)⟩

/-- Witness for `C7_path_valid` on the unblocked 2×1 grid. -/
theorem C7_path_valid_witness :
    ((0, 0) ∈ gridKeys wg21 ∧ Reachable wg21 (0, 0) (1, 0)) ∧
    ((dijkstraPath wg21 (0, 0) (1, 0)).head? = some (0, 0) ∧
      (dijkstraPath wg21 (0, 0) (1, 0)).getLast? = some (1, 0) ∧
      List.Chain' (fun u v => isRoad wg21 u v = true) (dijkstraPath wg21 (0, 0) (1, 0))) :=
  ⟨⟨by decide, ⟨[(0, 0), (1, 0)], rfl, rfl,
      List.chain'_cons.mpr ⟨by decide, List.chain'_singleton _⟩⟩⟩,
    C7_path_valid wg21 (0, 0) (1, 0) (by decide)
      ⟨[(0, 0), (1, 0)], rfl, rfl,
        List.chain'_cons.mpr ⟨by decide, List.chain'_singleton _⟩⟩⟩

/-! ## C9: distance symmetry on an unblocked grid -/

lemma mem_keys_mk {w h : Int} {c : ℚ} {p : VId} :
    p ∈ gridKeys (mkRoadGrid w h c) ↔ p.1 < w.toNat ∧ p.2 < h.toNat := by
  show p ∈ ((List.range h.toNat).flatMap (fun y =>
      (List.range w.toNat).map (fun x => (((x, y) : VId), mkIntersection x y c)))).map (·.1) ↔ _
  rw [List.mem_map]
  constructor
  · rintro ⟨e, he, rfl⟩
    rw [List.mem_flatMap] at he
    obtain ⟨y, hy, he⟩ := he
    rw [List.mem_map] at he
    obtain ⟨x, hx, rfl⟩ := he
    rw [List.mem_range] at hx hy
    exact ⟨hx, hy⟩
  · rintro ⟨h1, h2⟩
    refine ⟨(p, mkIntersection p.1 p.2 c), ?_, rfl⟩
    rw [List.mem_flatMap]
    refine ⟨p.2, List.mem_range.mpr h2, ?_⟩
    rw [List.mem_map]
    exact ⟨p.1, List.mem_range.mpr h1, rfl⟩

lemma lookupI_isSome_of_mem_keys {g : RoadGrid} {v : VId} (h : v ∈ gridKeys g) :
    ∃ I, lookupI g v = some I := by
  rw [gridKeys, List.mem_map] at h
  obtain ⟨e, he, hfst⟩ := h
  rw [lookupI]
  cases hf : g.intersections.find? (fun x => x.1 == v) with
  | none =>
    have := List.find?_eq_none.mp hf e he
    rw [hfst] at this
    simp at this
  | some x => exact ⟨x.2, rfl⟩

lemma roads_mk_symm {w h : Int} {c : ℚ} {r : RoadEntry}
    (hr : r ∈ (mkRoadGrid w h c).roads) :
    (⟨r.toId, r.fromId, true⟩ : RoadEntry) ∈ (mkRoadGrid w h c).roads ∧
    r.isPassable = true ∧
    r.fromId ∈ gridKeys (mkRoadGrid w h c) ∧ r.toId ∈ gridKeys (mkRoadGrid w h c) := by
  have hroads : (mkRoadGrid w h c).roads = (List.range h.toNat).flatMap (fun y =>
      (List.range w.toNat).flatMap (fun x =>
        (if (x : Int) < w - 1 then
            [⟨(x, y), (x + 1, y), true⟩, ⟨(x + 1, y), (x, y), true⟩]
          else ([] : List RoadEntry)) ++
        (if (y : Int) < h - 1 then
            [⟨(x, y), (x, y + 1), true⟩, ⟨(x, y + 1), (x, y), true⟩]
          else []))) := rfl
  rw [hroads] at hr ⊢
  rw [List.mem_flatMap] at hr
  obtain ⟨y, hy, hr⟩ := hr
  rw [List.mem_flatMap] at hr
  obtain ⟨x, hx, hr⟩ := hr
  rw [List.mem_range] at hx hy
  have hmem : ∀ r' : RoadEntry, r' ∈
      ((if (x : Int) < w - 1 then
          [(⟨(x, y), (x + 1, y), true⟩ : RoadEntry), ⟨(x + 1, y), (x, y), true⟩]
        else []) ++
      (if (y : Int) < h - 1 then
          [(⟨(x, y), (x, y + 1), true⟩ : RoadEntry), ⟨(x, y + 1), (x, y), true⟩]
        else [])) →
      r' ∈ (List.range h.toNat).flatMap (fun y' =>
        (List.range w.toNat).flatMap (fun x' =>
          (if (x' : Int) < w - 1 then
              [⟨(x', y'), (x' + 1, y'), true⟩, ⟨(x' + 1, y'), (x', y'), true⟩]
            else ([] : List RoadEntry)) ++
          (if (y' : Int) < h - 1 then
              [⟨(x', y'), (x', y' + 1), true⟩, ⟨(x', y' + 1), (x', y'), true⟩]
            else []))) := by
    intro r' hr'
    rw [List.mem_flatMap]
    refine ⟨y, List.mem_range.mpr hy, ?_⟩
    rw [List.mem_flatMap]
    exact ⟨x, List.mem_range.mpr hx, hr'⟩
  rcases List.mem_append.mp hr with hr2 | hr2
  · by_cases hcond : (x : Int) < w - 1
    · rw [if_pos hcond] at hr2
      have hx1 : x + 1 < w.toNat := by omega
      rcases List.mem_cons.mp hr2 with h2 | h2
      · subst h2
        refine ⟨hmem _ (List.mem_append_left _ ?_), rfl,
          mem_keys_mk.mpr ⟨hx, hy⟩, mem_keys_mk.mpr ⟨hx1, hy⟩⟩
        rw [if_pos hcond]
        exact List.mem_cons_of_mem _ (List.mem_singleton.mpr rfl)
      · rw [List.mem_singleton] at h2
        subst h2
        refine ⟨hmem _ (List.mem_append_left _ ?_), rfl,
          mem_keys_mk.mpr ⟨hx1, hy⟩, mem_keys_mk.mpr ⟨hx, hy⟩⟩
        rw [if_pos hcond]
        exact List.mem_cons_self _ _
    · rw [if_neg hcond] at hr2
      exact absurd hr2 (List.not_mem_nil r)
  · by_cases hcond : (y : Int) < h - 1
    · rw [if_pos hcond] at hr2
      have hy1 : y + 1 < h.toNat := by omega
      rcases List.mem_cons.mp hr2 with h2 | h2
      · subst h2
        refine ⟨hmem _ (List.mem_append_right _ ?_), rfl,
          mem_keys_mk.mpr ⟨hx, hy⟩, mem_keys_mk.mpr ⟨hx, hy1⟩⟩
        rw [if_pos hcond]
        exact List.mem_cons_of_mem _ (List.mem_singleton.mpr rfl)
      · rw [List.mem_singleton] at h2
        subst h2
        refine ⟨hmem _ (List.mem_append_right _ ?_), rfl,
          mem_keys_mk.mpr ⟨hx, hy1⟩, mem_keys_mk.mpr ⟨hx, hy⟩⟩
        rw [if_pos hcond]
        exact List.mem_cons_self _ _
    · rw [if_neg hcond] at hr2
      exact absurd hr2 (List.not_mem_nil r)

lemma euclidQ_comm (A B : GridIntersection) : euclidQ A B = euclidQ B A := by
  rw [euclidQ, euclidQ, abs_sub_comm, abs_sub_comm A.pixelY]

lemma oadd_comm (x y : OQ) : oadd x y = oadd y x := by
  cases x <;> cases y <;> simp [oadd, add_comm]

lemma isConn_mk_aux {w h : Int} {c : ℚ} {u v : VId}
    (hc : isConn (mkRoadGrid w h c) u v = true) :
    isConn (mkRoadGrid w h c) v u = true := by
  obtain ⟨q, hq⟩ := isConn_iff.mp hc
  have hroad := mem_getNeighbors_road hq
  rw [isRoad, List.any_eq_true] at hroad
  obtain ⟨r, hr, hcond⟩ := hroad
  rw [Bool.and_eq_true, Bool.and_eq_true, beq_iff_eq, beq_iff_eq] at hcond
  obtain ⟨⟨hfrom, hto⟩, _⟩ := hcond
  obtain ⟨hrev, _, hfk, htk⟩ := roads_mk_symm hr
  obtain ⟨A, hA⟩ := lookupI_isSome_of_mem_keys hfk
  obtain ⟨B, hB⟩ := lookupI_isSome_of_mem_keys htk
  apply isConn_of_mem (e := (u, euclidQ B A))
  rw [getNeighbors, List.mem_filterMap]
  refine ⟨⟨r.toId, r.fromId, true⟩, hrev, ?_⟩
  have hcond2 : ((⟨r.toId, r.fromId, true⟩ : RoadEntry).fromId == v
      && (⟨r.toId, r.fromId, true⟩ : RoadEntry).isPassable) = true := by
    show (r.toId == v && true) = true
    rw [Bool.and_true, beq_iff_eq]
    exact hto
  rw [if_pos hcond2]
  show (match lookupI (mkRoadGrid w h c) r.toId, lookupI (mkRoadGrid w h c) r.fromId with
    | some a, some b => some (r.fromId, euclidQ a b)
    | _, _ => none) = some (u, euclidQ B A)
  rw [hA, hB, hfrom]

lemma isConn_mk_symm (w h : Int) (c : ℚ) (u v : VId) :
    isConn (mkRoadGrid w h c) u v = isConn (mkRoadGrid w h c) v u := by
  cases h1 : isConn (mkRoadGrid w h c) u v with
  | true => exact (isConn_mk_aux h1).symm
  | false =>
    cases h2 : isConn (mkRoadGrid w h c) v u with
    | true => exact Bool.noConfusion (h1.symm.trans (isConn_mk_aux h2))
    | false => rfl

lemma connW_char {g : RoadGrid} {u v : VId} (hc : isConn g u v = true) :
    ∃ A B, lookupI g u = some A ∧ lookupI g v = some B ∧
      connW g u v = some (euclidQ A B) := by
  obtain ⟨q, hq⟩ := isConn_iff.mp hc
  obtain ⟨A, B, hA, hB, hw⟩ := mem_getNeighbors_weight hq
  exact ⟨A, B, hA, hB, by rw [connW_of_mem hq, hw]⟩

lemma connW_none {g : RoadGrid} {u v : VId} (hc : isConn g u v = false) :
    connW g u v = none := by
  rw [connW]
  cases hf : (getNeighbors g u).find? (fun x => x.1 == v) with
  | none => rfl
  | some x =>
    have h1 : x ∈ getNeighbors g u := List.mem_of_find?_eq_some hf
    have h2 := List.find?_some hf
    simp only [beq_iff_eq] at h2
    have := isConn_of_mem h1
    rw [h2] at this
    rw [this] at hc
    exact Bool.noConfusion hc

lemma connW_mk_symm (w h : Int) (c : ℚ) (u v : VId) :
    connW (mkRoadGrid w h c) u v = connW (mkRoadGrid w h c) v u := by
  cases h1 : isConn (mkRoadGrid w h c) u v with
  | false =>
    have h2 : isConn (mkRoadGrid w h c) v u = false := by
      rw [← isConn_mk_symm]
      exact h1
    rw [connW_none h1, connW_none h2]
  | true =>
    have h2 : isConn (mkRoadGrid w h c) v u = true := by
      rw [← isConn_mk_symm]
      exact h1
    obtain ⟨A, B, hA, hB, hw⟩ := connW_char h1
    obtain ⟨B', A', hB', hA', hw'⟩ := connW_char h2
    rw [hB] at hB'
    injection hB' with hB'
    rw [hA] at hA'
    injection hA' with hA'
    rw [hw, hw', ← hA', ← hB', euclidQ_comm]

lemma costOf_reverse {g : RoadGrid} (hsymm : ∀ u v, connW g u v = connW g v u) :
    ∀ p : List VId, costOf g p.reverse = costOf g p := by
  intro p
  induction p with
  | nil => rfl
  | cons u rest ih =>
    cases rest with
    | nil => rfl
    | cons v rest' =>
      have hlast : ((v :: rest').reverse).getLast? = some v := by
        rw [List.getLast?_reverse, List.head?_cons]
      calc costOf g ((u :: v :: rest').reverse)
          = costOf g ((v :: rest').reverse ++ [u]) := by rw [List.reverse_cons]
        _ = oadd (costOf g ((v :: rest').reverse)) (connW g v u) :=
            costOf_append_single hlast u
        _ = oadd (costOf g (v :: rest')) (connW g v u) := by rw [ih]
        _ = oadd (connW g u v) (costOf g (v :: rest')) := by
            rw [oadd_comm, hsymm]
        _ = costOf g (u :: v :: rest') := rfl

lemma reachable_mk_symm {w h : Int} {c : ℚ} {a b : VId}
    (hr : Reachable (mkRoadGrid w h c) a b) : Reachable (mkRoadGrid w h c) b a := by
  obtain ⟨p, hh, hl, hch⟩ := hr
  refine ⟨p.reverse, ?_, ?_, ?_⟩
  · rw [List.head?_reverse]; exact hl
  · rw [List.getLast?_reverse]; exact hh
  · rw [List.chain'_reverse]
    refine hch.imp ?_
    intro x y hxy
    show isConn (mkRoadGrid w h c) y x = true
    rw [← isConn_mk_symm]
    exact hxy

lemma dRun_mk_symm_le {w h : Int} {c : ℚ} {a b : VId}
    (hb : b ∈ gridKeys (mkRoadGrid w h c)) {q : ℚ}
    (ha : a ∈ gridKeys (mkRoadGrid w h c))
    (hd : (dRun (mkRoadGrid w h c) a).dist b = some q) :
    ∃ q2, (dRun (mkRoadGrid w h c) b).dist a = some q2 ∧ q2 ≤ q := by
  obtain ⟨p, qc, hh, hl, hch, hcost, hle⟩ := (dRun_dinv ha).lower b q hd
  have hne : p.reverse ≠ [] := by
    intro hnil
    rw [← List.reverse_reverse p, hnil] at hh
    exact Option.noConfusion hh
  have hch' : List.Chain' (fun x y => isConn (mkRoadGrid w h c) x y = true) p.reverse := by
    rw [List.chain'_reverse]
    refine hch.imp ?_
    intro x y hxy
    show isConn (mkRoadGrid w h c) y x = true
    rw [← isConn_mk_symm]
    exact hxy
  obtain ⟨q2, qc2, hd2, hcost2, hle2⟩ :=
    final_upper (dRun_dinv hb) (dRun_pq_nil hb) p.reverse hne
      (by rw [List.head?_reverse]; exact hl) hch' a
      (by rw [List.getLast?_reverse]; exact hh)
  rw [costOf_reverse (connW_mk_symm w h c), hcost] at hcost2
  injection hcost2 with hcost2
  exact ⟨q2, hd2, by rw [← hcost2] at hle2; linarith⟩

/-- C9: on a freshly built grid — no segment and no intersection
blocked — the shortest-distance query is symmetric:
`_dijkstra_distance(a, b) = _dijkstra_distance(b, a)`. -/
theorem C9_distance_symmetric (w h : Int) (c : ℚ) (a b : VId)
    (ha : a ∈ gridKeys (mkRoadGrid w h c)) (hb : b ∈ gridKeys (mkRoadGrid w h c)) :
    dijkstraDistance (mkRoadGrid w h c) a b = dijkstraDistance (mkRoadGrid w h c) b a := by
  rw [dijkstraDistance_eq_dRun ha, dijkstraDistance_eq_dRun hb]
  cases h1 : (dRun (mkRoadGrid w h c) a).dist b with
  | none =>
    cases h2 : (dRun (mkRoadGrid w h c) b).dist a with
    | none => rfl
    | some q2 =>
      obtain ⟨p, qc, hh, hl, hch, _, _⟩ := (dRun_dinv hb).lower a q2 h2
      have hreach : Reachable (mkRoadGrid w h c) a b :=
        reachable_mk_symm ⟨p, hh, hl, hch⟩
      obtain ⟨q, hq⟩ := dRun_reach_finite ha hreach
      rw [h1] at hq
      exact Option.noConfusion hq
  | some q =>
    obtain ⟨q2, hd2, hle2⟩ := dRun_mk_symm_le hb ha h1
    obtain ⟨q3, hd3, hle3⟩ := dRun_mk_symm_le ha hb hd2
    rw [h1] at hd3
    injection hd3 with hd3
    rw [hd2]
    have : q = q2 := by rw [← hd3] at hle3; linarith
    rw [this]

/-- Witness for `C9_distance_symmetric` on the 2×1 grid. -/
theorem C9_distance_symmetric_witness :
    ((0, 0) ∈ gridKeys (mkRoadGrid 2 1 50) ∧ (1, 0) ∈ gridKeys (mkRoadGrid 2 1 50)) ∧
    dijkstraDistance (mkRoadGrid 2 1 50) (0, 0) (1, 0)
      = dijkstraDistance (mkRoadGrid 2 1 50) (1, 0) (0, 0) :=
  ⟨⟨by decide, by decide⟩,
    C9_distance_symmetric 2 1 50 (0, 0) (1, 0) (by decide) (by decide)⟩

/-! ## C1: unreachable POI pairs produce a route with infinite distance -/

lemma nnLoop_subset (m : List ((String × String) × OQ)) :
    ∀ (n : Nat) (cur : String) (unvis : List String) (x : String),
      x ∈ nnLoop m n cur unvis → x ∈ unvis := by
  intro n
  induction n with
  | zero => intro cur unvis x hx; exact absurd hx (List.not_mem_nil x)
  | succ k ih =>
    intro cur unvis x hx
    cases harg : argmin (fun dest => mGet m (cur, dest)) unvis with
    | none => rw [nnLoop, harg] at hx; exact absurd hx (List.not_mem_nil x)
    | some nearest =>
      rw [nnLoop, harg] at hx
      rcases List.mem_cons.mp hx with h | h
      · exact h ▸ argmin_mem harg
      · exact List.erase_subset _ _ (ih nearest (unvis.erase nearest) x h)

lemma nnSolve_mem {m : List ((String × String) × OQ)} {s x : String}
    {dests : List String} (hx : x ∈ nnSolve m s dests) : x = s ∨ x ∈ dests := by
  rw [nnSolve] at hx
  rcases List.mem_cons.mp hx with h | h
  · exact Or.inl h
  · exact Or.inr (List.mem_dedup.mp (nnLoop_subset m _ s dests.dedup x h))

lemma bfpTail_total {g : RoadGrid} :
    ∀ (rest : List String) (p : String), (poiInterId g p).isSome = true →
      (∀ x ∈ rest, (poiInterId g x).isSome = true) →
      ∃ l, bfpTail g p rest = some l := by
  intro rest
  induction rest with
  | nil => intro p _ _; exact ⟨[], rfl⟩
  | cons q rest' ih =>
    intro p hp hrest
    obtain ⟨pi, hpi⟩ := Option.isSome_iff_exists.mp hp
    obtain ⟨qi, hqi⟩ := Option.isSome_iff_exists.mp
      (hrest q (List.mem_cons_self q rest'))
    obtain ⟨l, hl⟩ := ih q (hrest q (List.mem_cons_self q rest'))
      (fun x hx => hrest x (List.mem_cons_of_mem q hx))
    refine ⟨(dijkstraPath g pi qi).drop 1 ++ l, ?_⟩
    rw [bfpTail, hpi, hqi, hl]
    rfl

lemma buildFullPath_total {g : RoadGrid} (path : List String)
    (h : ∀ x ∈ path, (poiInterId g x).isSome = true) :
    ∃ l, buildFullPath g path = some l := by
  cases path with
  | nil => exact ⟨[], rfl⟩
  | cons p rest =>
    cases rest with
    | nil => exact ⟨[], rfl⟩
    | cons q rest' =>
      obtain ⟨pi, hpi⟩ := Option.isSome_iff_exists.mp (h p (List.mem_cons_self _ _))
      obtain ⟨qi, hqi⟩ := Option.isSome_iff_exists.mp
        (h q (List.mem_cons_of_mem _ (List.mem_cons_self _ _)))
      obtain ⟨l, hl⟩ := bfpTail_total rest' q
        (h q (List.mem_cons_of_mem _ (List.mem_cons_self _ _)))
        (fun x hx => h x (List.mem_cons_of_mem _ (List.mem_cons_of_mem _ hx)))
      refine ⟨dijkstraPath g pi qi ++ l, ?_⟩
      rw [buildFullPath, hpi, hqi, hl]
      rfl

lemma calcPathDistance_total {g : RoadGrid} :
    ∀ (path : List String), (∀ x ∈ path, (poiInterId g x).isSome = true) →
      ∃ t, calcPathDistance g path = some t := by
  intro path
  induction path with
  | nil => intro _; exact ⟨some 0, rfl⟩
  | cons p rest ih =>
    intro h
    cases rest with
    | nil => exact ⟨some 0, rfl⟩
    | cons q rest' =>
      obtain ⟨pi, hpi⟩ := Option.isSome_iff_exists.mp (h p (List.mem_cons_self _ _))
      obtain ⟨qi, hqi⟩ := Option.isSome_iff_exists.mp
        (h q (List.mem_cons_of_mem _ (List.mem_cons_self _ _)))
      obtain ⟨t, ht⟩ := ih (fun x hx => h x (List.mem_cons_of_mem _ hx))
      refine ⟨oadd (dijkstraDistance g pi qi) t, ?_⟩
      rw [calcPathDistance, hpi, hqi, ht]
      rfl

lemma calcPathDistance_none {g : RoadGrid} :
    ∀ (l1 : List String) (p q : String) (l2 : List String),
      (∀ x ∈ l1 ++ p :: q :: l2, (poiInterId g x).isSome = true) →
      ∀ pi qi, poiInterId g p = some pi → poiInterId g q = some qi →
      dijkstraDistance g pi qi = none →
      calcPathDistance g (l1 ++ p :: q :: l2) = some none := by
  intro l1
  induction l1 with
  | nil =>
    intro p q l2 hall pi qi hpi hqi hd
    obtain ⟨t, ht⟩ := calcPathDistance_total (q :: l2)
      (fun x hx => hall x (List.mem_cons_of_mem _ hx))
    rw [List.nil_append, calcPathDistance, hpi, hqi, ht]
    show some (oadd (dijkstraDistance g pi qi) t) = some none
    rw [hd, oadd_none_left]
  | cons x l1' ih =>
    intro p q l2 hall pi qi hpi hqi hd
    have hmain : calcPathDistance g (l1' ++ p :: q :: l2) = some none :=
      ih p q l2 (fun y hy => hall y (List.mem_cons_of_mem _ hy)) pi qi hpi hqi hd
    obtain ⟨y, rest, hyr⟩ : ∃ y rest, l1' ++ p :: q :: l2 = y :: rest := by
      cases l1' with
      | nil => exact ⟨p, q :: l2, rfl⟩
      | cons z l1'' => exact ⟨z, l1'' ++ p :: q :: l2, rfl⟩
    obtain ⟨vx, hvx⟩ := Option.isSome_iff_exists.mp (hall x (List.mem_cons_self _ _))
    obtain ⟨vy, hvy⟩ := Option.isSome_iff_exists.mp
      (hall y (by rw [List.cons_append, hyr]; exact List.mem_cons_of_mem _ (List.mem_cons_self _ _)))
    rw [hyr] at hmain
    rw [List.cons_append, hyr, calcPathDistance, hvx, hvy, hmain]
    show some (oadd (dijkstraDistance g vx vy) none) = some none
    rw [oadd_none_right]

/-- C1 (amended): an unreachable consecutive POI pair never raises: if
the nearest-neighbor order contains a consecutive pair of mapped POIs
with no passable path between their intersections, `optimize` still
returns a complete `OptimizedRoute`; its `total_distance` is infinite
(`float('inf')`), and no error surfaces to the caller. -/
theorem C1_unreachable_infinite_total (g : RoadGrid) (start : String)
    (dests : List String)
    (hm : ∀ p ∈ start :: dests, ∃ v, poiInterId g p = some v ∧ v ∈ gridKeys g)
    (hsplit : ∃ l1 p q l2 pi qi,
      nnSolve (poiMatrix g (start :: dests)) start dests = l1 ++ p :: q :: l2 ∧
      poiInterId g p = some pi ∧ poiInterId g q = some qi ∧
      pi ∈ gridKeys g ∧ ¬ Reachable g pi qi) :
    ∃ r, nnOptimize g start dests = some r ∧ r.total_distance = none := by
  obtain ⟨l1, p, q, l2, pi, qi, hpath, hpi, hqi, hpik, hnr⟩ := hsplit
  have hmem : ∀ x ∈ nnSolve (poiMatrix g (start :: dests)) start dests,
      (poiInterId g x).isSome = true := by
    intro x hx
    rcases nnSolve_mem hx with h | h
    · obtain ⟨v, hv, _⟩ := hm x (h ▸ List.mem_cons_self _ _)
      rw [hv]; rfl
    · obtain ⟨v, hv, _⟩ := hm x (List.mem_cons_of_mem _ h)
      rw [hv]; rfl
  have hd : dijkstraDistance g pi qi = none := (dijkstraDistance_none_iff hpik).mpr hnr
  obtain ⟨fp, hfp⟩ := buildFullPath_total (nnSolve (poiMatrix g (start :: dests)) start dests) hmem
  have hcalc : calcPathDistance g (nnSolve (poiMatrix g (start :: dests)) start dests)
      = some none := by
    rw [hpath]
    rw [hpath] at hmem
    exact calcPathDistance_none l1 p q l2 hmem pi qi hpi hqi hd
  refine ⟨⟨nnSolve (poiMatrix g (start :: dests)) start dests, fp, none,
    "TSP Nearest Neighbor", 0⟩, ?_, rfl⟩
  rw [nnOptimize, hfp, hcalc]
  rfl

/-- Witness for `C1_unreachable_infinite_total` on the blocked 2×1
grid. -/
theorem C1_unreachable_infinite_total_witness :
    ∃ r, nnOptimize wg21b "A" ["B"] = some r ∧ r.total_distance = none := by
  refine C1_unreachable_infinite_total wg21b "A" ["B"] ?_ ?_
  · intro p hp
    rcases List.mem_cons.mp hp with h | h
    · subst h
      exact ⟨(0, 0), by decide, by decide⟩
    · rw [List.mem_singleton] at h
      subst h
      exact ⟨(1, 0), by decide, by decide⟩
  · refine ⟨[], "A", "B", [], (0, 0), (1, 0), by decide, by decide, by decide, by decide,
      not_reachable_of_no_neighbors _ _ _ (by decide) (by decide)⟩

/-! ## C5: 2-opt refinement never worsens the nearest-neighbor tour -/

lemma poiMatrix_mem {g : RoadGrid} {pois : List String}
    {e : (String × String) × OQ} (he : e ∈ poiMatrix g pois) :
    ∃ f t fi ti, e = ((f, t), dijkstraDistance g fi ti) ∧ f ∈ pois ∧ t ∈ pois ∧
      f ≠ t ∧ poiInterId g f = some fi ∧ poiInterId g t = some ti := by
  rw [poiMatrix, List.mem_flatMap] at he
  obtain ⟨f, hf, he⟩ := he
  rw [List.mem_filterMap] at he
  obtain ⟨t, ht, he⟩ := he
  by_cases hne : f ≠ t
  · rw [if_pos hne] at he
    cases hfi : poiInterId g f with
    | none => rw [hfi] at he; exact Option.noConfusion he
    | some fi =>
      cases hti : poiInterId g t with
      | none => rw [hfi, hti] at he; exact Option.noConfusion he
      | some ti =>
        rw [hfi, hti] at he
        injection he with he
        exact ⟨f, t, fi, ti, he.symm, hf, ht, hne, hfi, hti⟩
  · rw [if_neg hne] at he
    exact Option.noConfusion he

lemma poiMatrix_mem_mk {g : RoadGrid} {pois : List String} {f t : String}
    {fi ti : VId} (hf : f ∈ pois) (ht : t ∈ pois) (hne : f ≠ t)
    (hfi : poiInterId g f = some fi) (hti : poiInterId g t = some ti) :
    ((f, t), dijkstraDistance g fi ti) ∈ poiMatrix g pois := by
  rw [poiMatrix, List.mem_flatMap]
  refine ⟨f, hf, ?_⟩
  rw [List.mem_filterMap]
  refine ⟨t, ht, ?_⟩
  rw [if_pos hne, hfi, hti]

lemma mGet_poiMatrix {g : RoadGrid} {pois : List String} {f t : String}
    {fi ti : VId} (hf : f ∈ pois) (ht : t ∈ pois) (hne : f ≠ t)
    (hfi : poiInterId g f = some fi) (hti : poiInterId g t = some ti) :
    mGet (poiMatrix g pois) (f, t) = dijkstraDistance g fi ti := by
  rw [mGet]
  cases hfind : (poiMatrix g pois).find? (fun e => e.1 == (f, t)) with
  | none =>
    have := List.find?_eq_none.mp hfind _ (poiMatrix_mem_mk hf ht hne hfi hti)
    simp at this
  | some e =>
    have h1 : e ∈ poiMatrix g pois := List.mem_of_find?_eq_some hfind
    have h2 := List.find?_some hfind
    simp only [beq_iff_eq] at h2
    obtain ⟨f', t', fi', ti', he, _, _, _, hfi', hti'⟩ := poiMatrix_mem h1
    rw [he] at h2 ⊢
    injection h2 with h2f h2t
    subst h2f
    subst h2t
    rw [hfi] at hfi'
    injection hfi' with hfi'
    rw [hti] at hti'
    injection hti' with hti'
    rw [hfi', hti']

lemma calc_eq_routeDist {g : RoadGrid} {pois : List String} :
    ∀ (path : List String), (∀ x ∈ path, x ∈ pois) →
      List.Chain' (fun x y => x ≠ y) path →
      (∀ x ∈ path, (poiInterId g x).isSome = true) →
      calcPathDistance g path = some (routeDistM (poiMatrix g pois) path) := by
  intro path
  induction path with
  | nil => intro _ _ _; rfl
  | cons p rest ih =>
    intro hsub hch hmap
    cases rest with
    | nil => rfl
    | cons q rest' =>
      obtain ⟨pi, hpi⟩ := Option.isSome_iff_exists.mp (hmap p (List.mem_cons_self _ _))
      obtain ⟨qi, hqi⟩ := Option.isSome_iff_exists.mp
        (hmap q (List.mem_cons_of_mem _ (List.mem_cons_self _ _)))
      have htail := ih (fun x hx => hsub x (List.mem_cons_of_mem _ hx))
        (List.chain'_cons.mp hch).2
        (fun x hx => hmap x (List.mem_cons_of_mem _ hx))
      have hne : p ≠ q := (List.chain'_cons.mp hch).1
      rw [calcPathDistance, hpi, hqi, htail]
      show some (oadd (dijkstraDistance g pi qi) (routeDistM (poiMatrix g pois) (q :: rest')))
        = some (routeDistM (poiMatrix g pois) (p :: q :: rest'))
      rw [show routeDistM (poiMatrix g pois) (p :: q :: rest')
          = oadd (mGet (poiMatrix g pois) (p, q)) (routeDistM (poiMatrix g pois) (q :: rest'))
          from rfl]
      rw [mGet_poiMatrix (hsub p (List.mem_cons_self _ _))
        (hsub q (List.mem_cons_of_mem _ (List.mem_cons_self _ _))) hne hpi hqi]

lemma twoOptSwap_perm (r : List String) (i j : Nat) (hij : i ≤ j) :
    (twoOptSwap r i j).Perm r := by
  have h2 : (r.drop i).drop (j - i) = r.drop j := by
    rw [List.drop_drop]
    congr 1
    omega
  have key : r.take i ++ ((r.drop i).take (j - i) ++ r.drop j) = r := by
    rw [← h2, List.take_append_drop, List.take_append_drop]
  have hperm : (r.take i ++ (((r.drop i).take (j - i)).reverse ++ r.drop j)).Perm
      (r.take i ++ ((r.drop i).take (j - i) ++ r.drop j)) :=
    List.Perm.append_left _ (List.Perm.append_right _ (List.reverse_perm _))
  rw [key] at hperm
  rw [twoOptSwap, List.append_assoc]
  exact hperm

lemma tryPairs_spec {m : List ((String × String) × OQ)} {r r' : List String} {bd : OQ}
    (h : tryPairs m r bd = some r') :
    ∃ i j, 1 ≤ i ∧ i < j ∧ r' = twoOptSwap r i j ∧
      olt (routeDistM m r') bd = true := by
  obtain ⟨i, hi, h2⟩ := List.exists_of_findSome?_eq_some h
  obtain ⟨j, hj, h3⟩ := List.exists_of_findSome?_eq_some h2
  have hi1 : 1 ≤ i := by
    rw [List.mem_range'] at hi
    omega
  have hij : i < j := by
    rw [List.mem_range'] at hj
    omega
  simp only [] at h3
  split at h3
  · exact absurd h3 (by simp)
  · split at h3
    · injection h3 with h4
      subst h4
      rename_i holt
      exact ⟨i, j, hi1, hij, rfl, holt⟩
    · exact absurd h3 (by simp)

lemma twoOptAux_perm (m : List ((String × String) × OQ)) :
    ∀ (fuel : Nat) (r : List String) (it : Nat),
      ((twoOptAux m fuel r it).1).Perm r := by
  intro fuel
  induction fuel with
  | zero => intro r it; exact List.Perm.refl r
  | succ k ih =>
    intro r it
    rw [twoOptAux]
    cases htp : tryPairs m r (routeDistM m r) with
    | none => exact List.Perm.refl r
    | some r' =>
      obtain ⟨i, j, _, hij, hsw, _⟩ := tryPairs_spec htp
      exact (ih r' (it + 1)).trans (hsw ▸ twoOptSwap_perm r i j (le_of_lt hij))

lemma twoOptAux_ole (m : List ((String × String) × OQ)) :
    ∀ (fuel : Nat) (r : List String) (it : Nat),
      ole (routeDistM m ((twoOptAux m fuel r it).1)) (routeDistM m r) = true := by
  intro fuel
  induction fuel with
  | zero => intro r it; exact ole_refl _
  | succ k ih =>
    intro r it
    rw [twoOptAux]
    cases htp : tryPairs m r (routeDistM m r) with
    | none => exact ole_refl _
    | some r' =>
      obtain ⟨_, _, _, _, _, holt⟩ := tryPairs_spec htp
      exact ole_trans (ih r' (it + 1)) (olt_ole holt)

/-- C5: for a non-empty duplicate-free destination set, all POIs mapped,
the total distance reported by the 2-opt strategy is at most the total
distance reported by the nearest-neighbor strategy on the same input
(the 2-opt refinement starts from the same nearest-neighbor tour and
only ever commits strictly improving reversals). -/
theorem C5_two_opt_monotone (g : RoadGrid) (maxIter : Nat) (start : String)
    (dests : List String) (hnodup : dests.Nodup) (hstart : start ∉ dests)
    (_hne : dests ≠ []) (hm : ∀ p ∈ start :: dests, (poiInterId g p).isSome = true) :
    ∃ r2 r1, twoOptOptimize g maxIter start dests = some r2 ∧
      nnOptimize g start dests = some r1 ∧
      ole r2.total_distance r1.total_distance = true := by
  have hperm0 : (nnSolve (poiMatrix g (start :: dests)) start dests).Perm (start :: dests) :=
    nnSolve_perm _ start dests hnodup
  have hnodup0 : (nnSolve (poiMatrix g (start :: dests)) start dests).Nodup :=
    hperm0.nodup_iff.mpr (List.nodup_cons.mpr ⟨hstart, hnodup⟩)
  have hmem0 : ∀ x ∈ nnSolve (poiMatrix g (start :: dests)) start dests,
      x ∈ start :: dests := fun x hx => hperm0.subset hx
  have hmap0 : ∀ x ∈ nnSolve (poiMatrix g (start :: dests)) start dests,
      (poiInterId g x).isSome = true := fun x hx => hm x (hmem0 x hx)
  have hch0 : List.Chain' (fun x y => x ≠ y)
      (nnSolve (poiMatrix g (start :: dests)) start dests) := hnodup0.chain'
  have hcalc0 : calcPathDistance g (nnSolve (poiMatrix g (start :: dests)) start dests)
      = some (routeDistM (poiMatrix g (start :: dests))
          (nnSolve (poiMatrix g (start :: dests)) start dests)) :=
    calc_eq_routeDist _ hmem0 hch0 hmap0
  obtain ⟨fp0, hfp0⟩ := buildFullPath_total
    (nnSolve (poiMatrix g (start :: dests)) start dests) hmap0
  have hperm1 : ((twoOpt (poiMatrix g (start :: dests)) maxIter
      (nnSolve (poiMatrix g (start :: dests)) start dests)).1).Perm
      (nnSolve (poiMatrix g (start :: dests)) start dests) :=
    twoOptAux_perm _ maxIter _ 0
  have hnodup1 := hperm1.nodup_iff.mpr hnodup0
  have hmem1 : ∀ x ∈ (twoOpt (poiMatrix g (start :: dests)) maxIter
      (nnSolve (poiMatrix g (start :: dests)) start dests)).1, x ∈ start :: dests :=
    fun x hx => hmem0 x (hperm1.subset hx)
  have hmap1 : ∀ x ∈ (twoOpt (poiMatrix g (start :: dests)) maxIter
      (nnSolve (poiMatrix g (start :: dests)) start dests)).1,
      (poiInterId g x).isSome = true := fun x hx => hm x (hmem1 x hx)
  have hcalc1 : calcPathDistance g
      ((twoOpt (poiMatrix g (start :: dests)) maxIter
        (nnSolve (poiMatrix g (start :: dests)) start dests)).1)
      = some (routeDistM (poiMatrix g (start :: dests))
          ((twoOpt (poiMatrix g (start :: dests)) maxIter
            (nnSolve (poiMatrix g (start :: dests)) start dests)).1)) :=
    calc_eq_routeDist _ hmem1 hnodup1.chain' hmap1
  obtain ⟨fp1, hfp1⟩ := buildFullPath_total
    ((twoOpt (poiMatrix g (start :: dests)) maxIter
      (nnSolve (poiMatrix g (start :: dests)) start dests)).1) hmap1
  refine ⟨⟨(twoOpt (poiMatrix g (start :: dests)) maxIter
        (nnSolve (poiMatrix g (start :: dests)) start dests)).1, fp1,
      routeDistM (poiMatrix g (start :: dests))
        ((twoOpt (poiMatrix g (start :: dests)) maxIter
          (nnSolve (poiMatrix g (start :: dests)) start dests)).1),
      "TSP + 2-Opt Local Search",
      (twoOpt (poiMatrix g (start :: dests)) maxIter
        (nnSolve (poiMatrix g (start :: dests)) start dests)).2⟩,
    ⟨nnSolve (poiMatrix g (start :: dests)) start dests, fp0,
      routeDistM (poiMatrix g (start :: dests))
        (nnSolve (poiMatrix g (start :: dests)) start dests),
      "TSP Nearest Neighbor", 0⟩, ?_, ?_, ?_⟩
  · rw [twoOptOptimize, hfp1, hcalc1]
    rfl
  · rw [nnOptimize, hfp0, hcalc0]
    rfl
  · exact twoOptAux_ole _ maxIter _ 0

/-- Witness for `C5_two_opt_monotone` on the unblocked 2×1 grid. -/
theorem C5_two_opt_monotone_witness :
    ∃ r2 r1, twoOptOptimize wg21 1000 "A" ["B"] = some r2 ∧
      nnOptimize wg21 "A" ["B"] = some r1 ∧
      ole r2.total_distance r1.total_distance = true := by
  refine C5_two_opt_monotone wg21 1000 "A" ["B"] (by decide) (by decide) (by decide) ?_
  intro p hp
  rcases List.mem_cons.mp hp with h | h
  · subst h; decide
  · rw [List.mem_singleton] at h; subst h; decide
